import Mathlib

/-!
Verification of the column-detection and region-management engine of the
pdftextorizer repository (`src/multi_column.py`, `src/pdffile.py`,
`src/regions_schema.py`).

The Python code is shallowly embedded: every function is translated into an
executable Lean definition over explicit state.  Geometry follows the
integer-rectangle semantics of the external geometry library as described in
the specification (§4.1): intersection is componentwise max/min, a rectangle
is empty iff `x1 ≤ x0` or `y1 ≤ y0`, union of two non-empty rectangles is the
smallest enclosing rectangle and the union with an empty rectangle returns
the other operand, and rectangle containment means the inner rectangle's
edges lie (well-ordered) inside the outer's.
-/

namespace PdfTextorizer

/-- Integer axis-aligned rectangle `(x0, y0, x1, y1)` (fitz.IRect). -/
structure IRect where
  x0 : Int
  y0 : Int
  x1 : Int
  y1 : Int
deriving Repr, DecidableEq, Inhabited

/-- `IRect.is_empty`: true iff `x0 ≥ x1` or `y0 ≥ y1`. -/
def IRect.isEmpty (r : IRect) : Bool :=
  r.x1 ≤ r.x0 || r.y1 ≤ r.y0

/-- Rectangle intersection `a & b` (componentwise max/min); only its
emptiness is ever consulted by the detector. -/
def rectInter (a b : IRect) : IRect :=
  ⟨max a.x0 b.x0, max a.y0 b.y0, min a.x1 b.x1, min a.y1 b.y1⟩

/-- Rectangle union `a | b`: union with an empty rectangle returns the other
operand, otherwise the smallest enclosing rectangle. -/
def rectUnion (a b : IRect) : IRect :=
  if b.isEmpty then a
  else if a.isEmpty then b
  else ⟨min a.x0 b.x0, min a.y0 b.y0, max a.x1 b.x1, max a.y1 b.y1⟩

/-- The empty sentinel rectangle `fitz.EMPTY_IRECT()`:
`(FZ_MAX_INF_RECT, FZ_MAX_INF_RECT, FZ_MIN_INF_RECT, FZ_MIN_INF_RECT)`. -/
def EMPTY_IRECT : IRect :=
  ⟨2147483520, 2147483520, -2147483648, -2147483648⟩

/-- `inner in outer` on rectangles: the inner rectangle's edges lie
well-ordered inside the outer's. -/
def containsRect (outer inner : IRect) : Bool :=
  outer.x0 ≤ inner.x0 && inner.x0 ≤ inner.x1 && inner.x1 ≤ outer.x1 &&
  outer.y0 ≤ inner.y0 && inner.y0 ≤ inner.y1 && inner.y1 ≤ outer.y1

/-- `in_bbox(bb, bboxes)` (multi_column.py line 74): 1-based index of the
first rectangle of the list containing `bb`, else 0. -/
def inBBox (bb : IRect) : List IRect → Nat → Nat
  | [], _ => 0
  | b :: rest, i => if containsRect b bb then i + 1 else inBBox bb rest (i + 1)

/-- `in_bbox` with the index accumulator started at 0. -/
def inBBox0 (bb : IRect) (l : List IRect) : Nat :=
  inBBox bb l 0

/-- `intersects_bboxes(bb, bboxes)` (multi_column.py line 81): true iff some
rectangle of the list has non-empty intersection with `bb`. -/
def intersectsBBoxes (bb : IRect) (l : List IRect) : Bool :=
  l.any (fun b => !(rectInter bb b).isEmpty)

/-- `can_extend(temp, bb, bboxlist)` (multi_column.py line 56).  Entries may
be `none` (removed); the vertical-text veto is re-tested inside the loop
exactly as in the source, so an empty list yields `true` unconditionally. -/
def canExtend (vertBBoxes : List IRect) (temp bb : IRect)
    (bboxlist : List (Option IRect)) : Bool :=
  bboxlist.all fun ob =>
    !(intersectsBBoxes temp vertBBoxes) &&
      (match ob with
       | none => true
       | some b => b == bb || (rectInter temp b).isEmpty)

/-- One iteration of the `extend_right` loop body (multi_column.py lines
103-123) at index `i` of the working candidate list. -/
def extendStep (width : Int) (pathBBoxes vertBBoxes imgBBoxes : List IRect)
    (bs : List IRect) (i : Nat) : List IRect :=
  match bs.get? i with
  | none => bs
  | some bb =>
    if inBBox0 bb pathBBoxes ≠ 0 then bs
    else if inBBox0 bb imgBBoxes ≠ 0 then bs
    else
      let temp : IRect := { bb with x1 := width }
      if intersectsBBoxes temp (pathBBoxes ++ vertBBoxes ++ imgBBoxes) then bs
      else if canExtend vertBBoxes temp bb (bs.map some) then bs.set i temp
      else bs

/-- Run `k` further iterations of the `extend_right` loop starting at
index `i`. -/
def extendGo (width : Int) (pathBBoxes vertBBoxes imgBBoxes : List IRect) :
    Nat → List IRect → Nat → List IRect
  | 0, bs, _ => bs
  | k + 1, bs, i =>
      extendGo width pathBBoxes vertBBoxes imgBBoxes k
        (extendStep width pathBBoxes vertBBoxes imgBBoxes bs i) (i + 1)

/-- The working candidate list after the first `j` iterations of the
`extend_right` loop. -/
def extendIter (width : Int) (pathBBoxes vertBBoxes imgBBoxes : List IRect)
    (bs : List IRect) : Nat → List IRect
  | 0 => bs
  | j + 1 =>
      extendStep width pathBBoxes vertBBoxes imgBBoxes
        (extendIter width pathBBoxes vertBBoxes imgBBoxes bs j) j

/-- `extend_right(bboxes, width, path_bboxes, vert_bboxes, img_bboxes)`
(multi_column.py lines 88-125).  The final `[b for b in bboxes if b is not
None]` comprehension is the identity here because the working list holds
plain rectangles and the loop never inserts `None`. -/
def extendRight (width : Int) (pathBBoxes vertBBoxes imgBBoxes : List IRect)
    (bs : List IRect) : List IRect :=
  extendGo width pathBBoxes vertBBoxes imgBBoxes bs.length bs 0

/-- One text line of a page block: its bounding box, the line direction
(`line["dir"]`, only the first line's value is consulted), and the
concatenation of its stripped span texts. -/
structure Line where
  bbox : IRect
  dir : Int × Int
  text : String
deriving Repr, Inhabited

/-- One text block of a page: the block's own bounding box and its
(non-empty) list of lines, as produced by the external text extractor. -/
structure Block where
  bbox : IRect
  line0 : Line
  lineRest : List Line
deriving Repr, Inhabited

/-- All lines of a block, first line first. -/
def Block.lines (b : Block) : List Line :=
  b.line0 :: b.lineRest

/-- Stable insertion of `x` into `l`: `x` goes before the first element not
strictly less than it, so earlier-listed elements with equal keys stay in
front. -/
def insertLt {α : Type} (lt : α → α → Bool) (x : α) : List α → List α
  | [] => [x]
  | y :: ys => if lt y x then y :: insertLt lt x ys else x :: y :: ys

/-- Stable ascending sort (the semantics of Python's `list.sort`/`sorted`
with a key function, expressed with the induced strict comparison). -/
def stableSortBy {α : Type} (lt : α → α → Bool) : List α → List α
  | [] => []
  | x :: xs => insertLt lt x (stableSortBy lt xs)

/-- Strict lexicographic comparison on the path sort key `(y0, x0)`
(multi_column.py line 170). -/
def pathKeyLt (a b : IRect) : Bool :=
  a.y0 < b.y0 || (a.y0 == b.y0 && a.x0 < b.x0)

/-- Strict lexicographic comparison on the candidate sort key
`(in_bbox(k, path_bboxes), k.y0, k.x0)` (multi_column.py line 209). -/
def candKeyLt (pathBBoxes : List IRect) (a b : IRect) : Bool :=
  let ka := inBBox0 a pathBBoxes
  let kb := inBBox0 b pathBBoxes
  ka < kb || (ka == kb && (a.y0 < b.y0 || (a.y0 == b.y0 && a.x0 < b.x0)))

/-- The block-scanning pass (multi_column.py lines 184-206): returns the
candidate bboxes and the vertical-text obstacle bboxes, in block order. -/
def buildBoxes (imgBBoxes : List IRect) (noImageText : Bool) :
    List Block → List IRect × List IRect
  | [] => ([], [])
  | b :: rest =>
    let (bs, vs) := buildBoxes imgBBoxes noImageText rest
    if noImageText && inBBox0 b.bbox imgBBoxes ≠ 0 then (bs, vs)
    else if b.line0.dir ≠ (1, 0) then (bs, b.bbox :: vs)
    else
      let srect := b.lines.foldl
        (fun acc line =>
          if line.text.length > 1 then rectUnion acc line.bbox else acc)
        EMPTY_IRECT
      if !srect.isEmpty then (srect :: bs, vs) else (bs, vs)

/-- The inner scan of the merge pass (multi_column.py lines 231-245): find
the first output block `nbb` that horizontally overlaps `bb`, has the same
path-box membership, and whose union with `bb` passes `can_extend` against
the whole output list; return its index and the union. -/
def findMerge (pathBBoxes vertBBoxes : List IRect) (bb : IRect)
    (all : List (Option IRect)) : List IRect → Nat → Option (Nat × IRect)
  | [], _ => none
  | nbb :: rest, j =>
    if nbb.x1 < bb.x0 || bb.x1 < nbb.x0 then
      findMerge pathBBoxes vertBBoxes bb all rest (j + 1)
    else if inBBox0 nbb pathBBoxes ≠ inBBox0 bb pathBBoxes then
      findMerge pathBBoxes vertBBoxes bb all rest (j + 1)
    else
      let temp := rectUnion bb nbb
      if canExtend vertBBoxes temp nbb all then some (j, temp)
      else findMerge pathBBoxes vertBBoxes bb all rest (j + 1)

/-- The merge loop (multi_column.py lines 227-258), iterating over the
remaining candidates (entries are erased to `none` once processed) and
growing the output-block list `nblocks`. -/
def mergeGo (pathBBoxes vertBBoxes : List IRect) :
    Nat → List IRect → List (Option IRect) → Nat → List IRect
  | 0, nblocks, _, _ => nblocks
  | k + 1, nblocks, bs, i =>
    match bs.getD i none with
    | none => mergeGo pathBBoxes vertBBoxes k nblocks (bs.set i none) (i + 1)
    | some bb =>
      let found := findMerge pathBBoxes vertBBoxes bb (nblocks.map some) nblocks 0
      let step :=
        match found with
        | some (j, temp) => (nblocks, j, temp)
        | none => (nblocks ++ [bb], nblocks.length, bb)
      let nb1 := step.1
      let j := step.2.1
      let temp := step.2.2
      let nb2 := if canExtend vertBBoxes temp bb bs then nb1.set j temp
                 else nb1 ++ [bb]
      mergeGo pathBBoxes vertBBoxes k nb2 (bs.set i none) (i + 1)

/-- One step of the duplicate-removal scan of `clean_nblocks`
(multi_column.py lines 134-139) at index `i`; `l[i-1]` at `i = 0` is
Python's negative index, i.e. the last element. -/
def dedupStep (l : List IRect) (i : Nat) : List IRect :=
  let bb1 := l.getD i default
  let bb0 := if i = 0 then l.getD (l.length - 1) default else l.getD (i - 1) default
  if bb0 = bb1 then l.eraseIdx i else l

/-- The duplicate-removal scan, walking indices `k-1, k-2, …, 0`. -/
def dedupGo : List IRect → Nat → List IRect
  | l, 0 => l
  | l, k + 1 => dedupGo (dedupStep l k) k

/-- Replace the slice `l[i0 .. i1]` by its stable sort ascending by `x0`
(multi_column.py lines 154-156). -/
def sortSliceByX0 (l : List IRect) (i0 i1 : Nat) : List IRect :=
  l.take i0 ++ stableSortBy (fun a b => a.x0 < b.x0) ((l.drop i0).take (i1 - i0 + 1))
    ++ l.drop (i1 + 1)

/-- The row-repair scan of `clean_nblocks` (multi_column.py lines 144-161):
maximal runs of consecutive blocks whose bottoms are within 10 units of the
run's first bottom are sorted ascending by left edge.  `k` counts the
remaining loop iterations (`i` runs up to the fixed list length). -/
def repairGo : Nat → List IRect → Int → Nat → Nat → List IRect
  | 0, l, _, i0, _ =>
      if l.length - 1 > i0 then sortSliceByX0 l i0 (l.length - 1) else l
  | k + 1, l, y1, i0, i =>
      let b1 := l.getD i default
      if (b1.y1 - y1).natAbs > 10 then
        let l' := if i - 1 > i0 then sortSliceByX0 l i0 (i - 1) else l
        repairGo k l' b1.y1 i (i + 1)
      else repairGo k l y1 i0 (i + 1)

/-- `clean_nblocks(nblocks)` (multi_column.py lines 127-162): remove
duplicates (downward scan with Python's `[-1]` wrap at index 0), then sort
same-bottom runs by `x0`.  Python reads `nblocks[0]` unguarded at line 144;
the model uses a default there (that read is reachable only after the
duplicate scan emptied the list, where Python would raise). -/
def cleanNBlocks (l : List IRect) : List IRect :=
  if l.length < 2 then l
  else
    let l1 := dedupGo l l.length
    repairGo (l1.length - 1) l1 (l1.getD 0 default).y1 0 1

/-- `column_boxes(page, footer_margin, header_margin, left_margin,
right_margin, no_image_text)` (multi_column.py lines 29-264).

Inputs are the page's rectangle and primitives as provided by the external
PDF provider: `pathRects` are the drawings' bounding boxes
(`p["rect"].irect` in extraction order), `imgBBoxes` the image placement
boxes, and `blocks` the text blocks returned by the provider for the
margin-reduced clip area (the clip rectangle is consumed only by that
external call).  The extension pass receives `int(page.rect.width)`, i.e.
`x1 - x0` of the page rectangle. -/
def columnBoxes (pageRect : IRect)
    (footerMargin headerMargin leftMargin rightMargin : Int)
    (pathRects imgBBoxes : List IRect) (blocks : List Block)
    (noImageText : Bool) : List IRect :=
  let pathBBoxes := stableSortBy pathKeyLt pathRects
  let built := buildBoxes imgBBoxes noImageText blocks
  let vertBBoxes := built.2
  let bboxes1 := stableSortBy (candKeyLt pathBBoxes) built.1
  let width := pageRect.x1 - pageRect.x0
  let bboxes2 := extendRight width pathBBoxes vertBBoxes imgBBoxes bboxes1
  match bboxes2 with
  | [] => []
  | first :: rest =>
      cleanNBlocks (mergeGo pathBBoxes vertBBoxes rest.length [first] (rest.map some) 0)

/-! ## Region Store (`pdffile.py`)

The per-page region cache `self._regions : dict[int, list[fitz.IRect]]` is
modelled as an insertion-ordered association list with the usual dict
semantics: lookup finds the (unique) matching key, assignment to a present
key updates the value in place, assignment to an absent key appends, and
`pop` removes the entry or raises `KeyError` when absent. -/

/-- Dict lookup on the insertion-ordered association list. -/
def alistLookup {β : Type} : List (Int × β) → Int → Option β
  | [], _ => none
  | (k', v') :: rest, k => if k' = k then some v' else alistLookup rest k

/-- Dict assignment `d[k] = v`: update in place if present, append if
absent. -/
def alistSet {β : Type} : List (Int × β) → Int → β → List (Int × β)
  | [], k, v => [(k, v)]
  | (k', v') :: rest, k, v =>
      if k' = k then (k', v) :: rest else (k', v') :: alistSet rest k v

/-- Dict `pop` without default: removes the entry (the caller checks
presence separately, matching `KeyError` on absence). -/
def alistErase {β : Type} : List (Int × β) → Int → List (Int × β)
  | [], _ => []
  | (k', v') :: rest, k =>
      if k' = k then rest else (k', v') :: alistErase rest k

/-- In-place mutation of the list object stored under key `k` (Python code
mutates the cached `list` aliased out of the dict). -/
def alistModify {β : Type} (g : β → β) : List (Int × β) → Int → List (Int × β)
  | [], _ => []
  | (k', v') :: rest, k =>
      if k' = k then (k', g v') :: rest else (k', v') :: alistModify g rest k

/-- The page primitives the store fetches from the external PDF provider
via `load_page`: the page rectangle, drawing/image boxes, text blocks, and
the clip-text extractor used by `_convert_region_to_text`. -/
structure PageData where
  rect : IRect
  paths : List IRect
  images : List IRect
  blocks : List Block
  extractText : IRect → String

/-- The `PDFFile` object: document identity (`_name`, `_checksum`,
`page_count`), per-page primitives, and the region cache `_regions`. -/
structure PDFFile where
  name : String
  checksum : String
  pageCount : Nat
  pageData : Nat → PageData
  regions : List (Int × List IRect)

/-- `get_regions(page, top_margin, bottom_margin, left_margin, right_margin,
no_image_text)` (pdffile.py lines 216-240): `none` for an out-of-range page;
otherwise the cached list, computing and caching the detector's result on a
miss.  Returns the answer together with the (possibly updated) store. -/
def getRegions (f : PDFFile) (page : Int)
    (topMargin bottomMargin leftMargin rightMargin : Int)
    (noImageText : Bool) : Option (List IRect) × PDFFile :=
  if page < 0 ∨ (f.pageCount : Int) ≤ page then (none, f)
  else
    match alistLookup f.regions page with
    | some rs => (some rs, f)
    | none =>
      let pd := f.pageData page.toNat
      let rs := columnBoxes pd.rect bottomMargin topMargin leftMargin rightMargin
        pd.paths pd.images pd.blocks noImageText
      (some rs, { f with regions := alistSet f.regions page rs })

/-- `clear_regions(page)` (pdffile.py lines 71-78): a bare `dict.pop`, so an
absent cache entry raises `KeyError` (modelled as `.error`). -/
def clearRegions (f : PDFFile) (page : Int) : Except String PDFFile :=
  match alistLookup f.regions page with
  | none => .error "KeyError"
  | some _ => .ok { f with regions := alistErase f.regions page }

/-- `mark_page_empty(page)` (pdffile.py lines 80-89). -/
def markPageEmpty (f : PDFFile) (page : Int) : PDFFile :=
  if page < 0 ∨ (f.pageCount : Int) ≤ page then f
  else { f with regions := alistSet f.regions page [] }

/-- `remove_region(page, region)` (pdffile.py lines 97-108).  The guard
short-circuits left to right, so `get_regions` (which populates the cache)
runs only once `page` is in range and `region ≥ 0`. -/
def removeRegion (f : PDFFile) (page region : Int) : PDFFile :=
  if page < 0 ∨ (f.pageCount : Int) ≤ page ∨ region < 0 then f
  else
    let res := getRegions f page 0 0 0 0 false
    let rs := res.1.getD []
    if (rs.length : Int) ≤ region then res.2
    else { res.2 with regions := alistModify (fun l => l.eraseIdx region.toNat) res.2.regions page }

/-- The clamp `max(0, min(x, limit - 1))` used on region coordinates
(pdffile.py lines 124-127 and 151-154). -/
def clampCoord (x limit : Int) : Int :=
  max 0 (min x (limit - 1))

/-- `p.rect.width` of a loaded page. -/
def pageW (f : PDFFile) (page : Int) : Int :=
  (f.pageData page.toNat).rect.x1 - (f.pageData page.toNat).rect.x0

/-- `p.rect.height` of a loaded page. -/
def pageH (f : PDFFile) (page : Int) : Int :=
  (f.pageData page.toNat).rect.y1 - (f.pageData page.toNat).rect.y0

/-- `add_region(page, left, top, right, bottom)` (pdffile.py lines 110-134):
clamps the coordinates to the page, silently rejects degenerate rectangles
(before ever touching the cache), otherwise appends to the page's cached
list (populating it via `get_regions` first). -/
def addRegion (f : PDFFile) (page left top right bottom : Int) : PDFFile :=
  if page < 0 ∨ (f.pageCount : Int) ≤ page then f
  else
    let left' := clampCoord left (pageW f page)
    let right' := clampCoord right (pageW f page)
    let top' := clampCoord top (pageH f page)
    let bottom' := clampCoord bottom (pageH f page)
    if right' ≤ left' ∨ bottom' ≤ top' then f
    else
      let res := getRegions f page 0 0 0 0 false
      { res.2 with
        regions := alistModify (fun l => l ++ [⟨left', top', right', bottom'⟩]) res.2.regions page }

/-- `modify_region(page, region, left, top, right, bottom)` (pdffile.py
lines 136-161): bounds-checked like `remove_region`, then the same clamp and
degenerate rejection as `add_region`, then in-place replacement. -/
def modifyRegion (f : PDFFile) (page region left top right bottom : Int) : PDFFile :=
  if page < 0 ∨ (f.pageCount : Int) ≤ page ∨ region < 0 then f
  else
    let res := getRegions f page 0 0 0 0 false
    let rs := res.1.getD []
    if (rs.length : Int) ≤ region then res.2
    else
      let left' := clampCoord left (pageW f page)
      let right' := clampCoord right (pageW f page)
      let top' := clampCoord top (pageH f page)
      let bottom' := clampCoord bottom (pageH f page)
      if right' ≤ left' ∨ bottom' ≤ top' then res.2
      else
        { res.2 with
          regions := alistModify (fun l => l.set region.toNat ⟨left', top', right', bottom'⟩)
            res.2.regions page }

/-- Simultaneous swap of the adjacent entries at positions `i` and `i + 1`
(`regions[i], regions[i+1] = regions[i+1], regions[i]`). -/
def swapAdj (l : List IRect) (i : Nat) : List IRect :=
  let a := l.getD i default
  let b := l.getD (i + 1) default
  (l.set i b).set (i + 1) a

/-- The "move up" `while` loop of `reorder_region` (pdffile.py lines
181-188): swap with the predecessor up to `n` times, stopping at
position 0. -/
def moveUpN : List IRect → Nat → Nat → List IRect × Nat
  | l, r, 0 => (l, r)
  | l, r, n + 1 =>
      if r = 0 then (l, r)
      else moveUpN (swapAdj l (r - 1)) (r - 1) n

/-- The "move down" `while` loop of `reorder_region` (pdffile.py lines
191-198): swap with the successor up to `n` times, stopping at the last
position. -/
def moveDownN : List IRect → Nat → Nat → List IRect × Nat
  | l, r, 0 => (l, r)
  | l, r, n + 1 =>
      if l.length - 1 ≤ r then (l, r)
      else moveDownN (swapAdj l r) (r + 1) n

/-- The two `while` loops of `reorder_region`: a negative direction moves
the region up `|direction|` places, a positive one down. -/
def reorderCore (l : List IRect) (region : Nat) (direction : Int) :
    List IRect × Nat :=
  if direction < 0 then moveUpN l region (-direction).toNat
  else moveDownN l region direction.toNat

/-- `reorder_region(page, region, direction)` (pdffile.py lines 163-200):
returns the region's final index along with the updated store; out-of-range
arguments return the index unchanged. -/
def reorderRegion (f : PDFFile) (page region direction : Int) : Int × PDFFile :=
  if page < 0 ∨ (f.pageCount : Int) ≤ page ∨ region < 0 then (region, f)
  else
    let res := getRegions f page 0 0 0 0 false
    let rs := res.1.getD []
    if (rs.length : Int) ≤ region then (region, res.2)
    else
      let moved := reorderCore rs region.toNat direction
      ((moved.2 : Int), { res.2 with regions := alistSet res.2.regions page moved.1 })

/-- `_convert_region_to_text(page, region, concat_paragraphs)` (pdffile.py
lines 307-314): extract the clip text and optionally join wrapped lines. -/
def convertOne (f : PDFFile) (page : Int) (r : IRect) (concatParagraphs : Bool) : String :=
  let text := (f.pageData page.toNat).extractText r
  if concatParagraphs then text.replace " \n" " " else text

/-- `convert_region_to_text(page, region, concat_paragraphs)` (pdffile.py
lines 316-332): bounds-checked like `remove_region`, returning `""` (and the
possibly cache-populated store) when out of bounds. -/
def convertRegionToText (f : PDFFile) (page region : Int)
    (concatParagraphs : Bool) : String × PDFFile :=
  if page < 0 ∨ (f.pageCount : Int) ≤ page ∨ region < 0 then ("", f)
  else
    let res := getRegions f page 0 0 0 0 false
    let rs := res.1.getD []
    if (rs.length : Int) ≤ region then ("", res.2)
    else (convertOne res.2 page (rs.getD region.toNat default) concatParagraphs, res.2)

/-! ## Region serialization (`regions_schema.py`, pdffile.py lines 260-305)

The declarative marshmallow schema is modelled as explicit structural
loaders over a JSON-like value type, per the schema declaration: every
nested schema has `unknown = EXCLUDE` (unlisted keys are ignored), required
fields raise a validation error when missing unless the load is `partial`
(in which case they are simply omitted, propagating into nested schemas),
and present fields always type-check.  `fields.Int` accepts integers and
integer-shaped strings; `fields.Str` accepts strings; `fields.Bool` is
modelled on booleans only (marshmallow's extended truthy/falsy coercion is
not exercised here).  The `pages` dict keys are integers or integer-shaped
strings; key collisions after coercion (impossible for an actual Python
dict) are not deduplicated. -/

/-- A key of a Python dict appearing in the (de)serialized data: JSON keys
are strings, while in-memory dicts built by `serialize_regions` use `int`
page keys. -/
inductive JKey where
  | str (s : String)
  | int (n : Int)
deriving Repr, DecidableEq

/-- JSON-like values handled by the schema. -/
inductive JVal where
  | jnull
  | jbool (b : Bool)
  | jint (n : Int)
  | jstr (s : String)
  | jarr (xs : List JVal)
  | jobj (entries : List (JKey × JVal))
deriving Repr, Inhabited

/-- The errors surfaced by `deserialize_regions` and its schema helpers.
All but `pagesKeyError` are `marshmallow.ValidationError`s in the source;
`pagesKeyError` is the `KeyError` escaping `make_pages` when a partial load
has no `pages` key. -/
inductive RegionsError where
  | schemaError
  | pagesKeyError
  | noVersionInfo
  | invalidVersionInfo
  | unsupportedVersion (major minor patch : Int)
  | checksumMismatch (expected found : String)
  | pageCountMismatch (expected found : Int)
deriving Repr, DecidableEq

/-- Results of loading `RegionsSchema.Version` (partial loads may omit
required fields). -/
structure RawVersion where
  major : Option Int
  minor : Option Int
  patch : Option Int
deriving Repr, DecidableEq

/-- Results of loading `RegionsSchema.PDFFile`. -/
structure RawPdf where
  name : Option String
  checksum : Option String
  pages : Option Int
deriving Repr, DecidableEq

/-- Results of loading `RegionsSchema.Margins`. -/
structure RawMargins where
  left : Option Int
  top : Option Int
  right : Option Int
  bottom : Option Int
  ignoreImages : Option Bool
deriving Repr, DecidableEq

/-- Result of `RegionsSchema.load` before requiredness is enforced by the
caller; `pages` has already been rewritten by the `make_pages` post-load
hook into page-index → rectangle-list form. -/
structure RawDoc where
  version : Option RawVersion
  pdf : Option RawPdf
  margins : Option RawMargins
  pages : List (Int × List IRect)
deriving Repr, DecidableEq

/-- The `margins` metadata shape (`RegionsSchema.Margins`). -/
structure Margins where
  left : Int
  top : Int
  right : Int
  bottom : Int
  ignoreImages : Bool
deriving Repr, DecidableEq

/-- A fully validated document as returned by `deserialize_regions`. -/
structure LoadedDoc where
  versionMajor : Int
  versionMinor : Int
  versionPatch : Int
  pdfName : Option String
  pdfChecksum : String
  pdfPages : Int
  margins : Option Margins
  pages : List (Int × List IRect)
deriving Repr, DecidableEq

/-- First value stored under string key `name` in a decoded object. -/
def jlookup : List (JKey × JVal) → String → Option JVal
  | [], _ => none
  | (k, v) :: rest, name => if k = .str name then some v else jlookup rest name

/-- `fields.Int` deserialization: integers, or strings that parse as an
integer. -/
def loadInt : JVal → Except RegionsError Int
  | .jint n => .ok n
  | .jstr s => match s.toInt? with
               | some n => .ok n
               | none => .error .schemaError
  | _ => .error .schemaError

/-- `fields.Str` deserialization. -/
def loadStr : JVal → Except RegionsError String
  | .jstr s => .ok s
  | _ => .error .schemaError

/-- `fields.Bool` deserialization (booleans only, see the section note). -/
def loadBool : JVal → Except RegionsError Bool
  | .jbool b => .ok b
  | _ => .error .schemaError

/-- A required field: missing is tolerated (omitted) in a partial load and
a validation error otherwise; a present field must parse. -/
def loadReqField {α : Type} (partialLoad : Bool) (entries : List (JKey × JVal))
    (name : String) (parse : JVal → Except RegionsError α) :
    Except RegionsError (Option α) :=
  match jlookup entries name with
  | none => if partialLoad then .ok none else .error .schemaError
  | some v => (parse v).map some

/-- An optional field: missing is always tolerated. -/
def loadOptField {α : Type} (entries : List (JKey × JVal)) (name : String)
    (parse : JVal → Except RegionsError α) : Except RegionsError (Option α) :=
  match jlookup entries name with
  | none => .ok none
  | some v => (parse v).map some

/-- `RegionsSchema.Version` load. -/
def loadVersion (partialLoad : Bool) : JVal → Except RegionsError RawVersion
  | .jobj entries => do
      let major ← loadReqField partialLoad entries "major" loadInt
      let minor ← loadReqField partialLoad entries "minor" loadInt
      let patch ← loadReqField partialLoad entries "patch" loadInt
      .ok ⟨major, minor, patch⟩
  | _ => .error .schemaError

/-- `RegionsSchema.PDFFile` load (`name` optional, `checksum`/`pages`
required). -/
def loadPdf (partialLoad : Bool) : JVal → Except RegionsError RawPdf
  | .jobj entries => do
      let name ← loadOptField entries "name" loadStr
      let checksum ← loadReqField partialLoad entries "checksum" loadStr
      let pages ← loadReqField partialLoad entries "pages" loadInt
      .ok ⟨name, checksum, pages⟩
  | _ => .error .schemaError

/-- `RegionsSchema.Margins` load (all five fields required). -/
def loadMargins (partialLoad : Bool) : JVal → Except RegionsError RawMargins
  | .jobj entries => do
      let left ← loadReqField partialLoad entries "left" loadInt
      let top ← loadReqField partialLoad entries "top" loadInt
      let right ← loadReqField partialLoad entries "right" loadInt
      let bottom ← loadReqField partialLoad entries "bottom" loadInt
      let ignoreImages ← loadReqField partialLoad entries "ignore_images" loadBool
      .ok ⟨left, top, right, bottom, ignoreImages⟩
  | _ => .error .schemaError

/-- Monadic map over a list in the `Except` monad. -/
def exMapM {α β : Type} (g : α → Except RegionsError β) :
    List α → Except RegionsError (List β)
  | [] => .ok []
  | x :: xs => do
      let y ← g x
      let ys ← exMapM g xs
      .ok (y :: ys)

/-- A `pages` dict key (`fields.Int()` key field). -/
def loadKey : JKey → Except RegionsError Int
  | .int n => .ok n
  | .str s => match s.toInt? with
              | some n => .ok n
              | none => .error .schemaError

/-- One coordinate row: `fields.List(fields.Int, validate=Length(equal=4))`. -/
def loadRow : JVal → Except RegionsError (List Int)
  | .jarr ys => do
      let ns ← exMapM loadInt ys
      if ns.length = 4 then .ok ns else .error .schemaError
  | _ => .error .schemaError

/-- One `pages` dict value: a list of coordinate rows. -/
def loadRows : JVal → Except RegionsError (List (List Int))
  | .jarr xs => exMapM loadRow xs
  | _ => .error .schemaError

/-- The `pages` dict field. -/
def loadPagesField : JVal → Except RegionsError (List (Int × List (List Int)))
  | .jobj entries =>
      exMapM (fun kv => do
        let k ← loadKey kv.1
        let rows ← loadRows kv.2
        .ok (k, rows)) entries
  | _ => .error .schemaError

/-- `fitz.IRect([x0, y0, x1, y1])` over a validated 4-element row, as
applied by `make_pages`. -/
def rowToIRect : List Int → IRect
  | [a, b, c, d] => ⟨a, b, c, d⟩
  | _ => default

/-- `RegionsSchema.load(data, partial=partialLoad)` including the
`make_pages` post-load hook (which raises `KeyError` when a partial load
omitted `pages`). -/
def loadSchema (partialLoad : Bool) : JVal → Except RegionsError RawDoc
  | .jobj entries => do
      let version ← loadReqField partialLoad entries "version" (loadVersion partialLoad)
      let pdf ← loadReqField partialLoad entries "pdf" (loadPdf partialLoad)
      let margins ← loadOptField entries "margins" (loadMargins partialLoad)
      let pagesRaw ← loadReqField partialLoad entries "pages" loadPagesField
      match pagesRaw with
      | none => .error .pagesKeyError
      | some pr =>
          .ok ⟨version, pdf, margins, pr.map (fun kv => (kv.1, kv.2.map rowToIRect))⟩
  | _ => .error .schemaError

/-- `RegionsSchema.get_version(data)` (regions_schema.py lines 81-94):
partial load, then extract the three version numbers, raising dedicated
validation errors when the version object or its fields are absent. -/
def getVersion (data : JVal) : Except RegionsError (Int × Int × Int) :=
  match loadSchema true data with
  | .error e => .error e
  | .ok raw =>
    match raw.version with
    | none => .error .noVersionInfo
    | some v =>
      match v.major, v.minor, v.patch with
      | some major, some minor, some patch => .ok (major, minor, patch)
      | _, _, _ => .error .invalidVersionInfo

/-- Validation of the (optional) `margins` object of a full load. -/
def fullMargins : Option RawMargins → Except RegionsError (Option Margins)
  | none => .ok none
  | some m =>
    match m.left, m.top, m.right, m.bottom, m.ignoreImages with
    | some a, some b, some c, some d, some e =>
        .ok (some (⟨a, b, c, d, e⟩ : Margins))
    | _, _, _, _, _ => .error .schemaError

/-- `RegionsSchema.load(data)` (full load): all required fields must be
present and valid. -/
def fullLoad (data : JVal) : Except RegionsError LoadedDoc :=
  match loadSchema false data with
  | .error e => .error e
  | .ok raw =>
    match raw.version, raw.pdf with
    | some v, some pd =>
      match v.major, v.minor, v.patch, pd.checksum, pd.pages with
      | some major, some minor, some patch, some checksum, some pages =>
        match fullMargins raw.margins with
        | .error e => .error e
        | .ok margins =>
            .ok ⟨major, minor, patch, pd.name, checksum, pages, margins, raw.pages⟩
      | _, _, _, _, _ => .error .schemaError
    | _, _ => .error .schemaError

/-- Serialization of one cached rectangle as a 4-integer array. -/
def dumpIRect (r : IRect) : JVal :=
  .jarr [.jint r.x0, .jint r.y0, .jint r.x1, .jint r.y1]

/-- Serialization of the region cache (`'pages': self._regions` under
`RegionsSchema().dump`): integer page keys, rectangle coordinate rows. -/
def dumpPages (l : List (Int × List IRect)) : JVal :=
  .jobj (l.map fun kv => (.int kv.1, .jarr (kv.2.map dumpIRect)))

/-- Serialization of a well-formed `margins` metadata object. -/
def dumpMargins (m : Margins) : JVal :=
  .jobj [(.str "left", .jint m.left), (.str "top", .jint m.top),
         (.str "right", .jint m.right), (.str "bottom", .jint m.bottom),
         (.str "ignore_images", .jbool m.ignoreImages)]

/-- `serialize_regions(extra_data)` (pdffile.py lines 260-278) for extra
data conforming to the optional `margins` shape: the computed
`version`/`pdf`/`pages` keys win the dict merge, and `dump` keeps only the
schema's declared fields. -/
def serializeRegions (f : PDFFile) (extra : Option Margins) : JVal :=
  .jobj
    ([(.str "version", .jobj [(.str "major", .jint 1), (.str "minor", .jint 0),
                              (.str "patch", .jint 1)]),
      (.str "pdf", .jobj [(.str "name", .jstr f.name),
                          (.str "checksum", .jstr f.checksum),
                          (.str "pages", .jint (f.pageCount : Int))])]
     ++ (match extra with
         | some m => [((.str "margins" : JKey), dumpMargins m)]
         | none => [])
     ++ [(.str "pages", dumpPages f.regions)])

/-- The check chain of `deserialize_regions(data)` (pdffile.py lines
288-302): version gate (partial parse), full schema parse, then checksum
and page-count cross-checks. -/
def deserializeCheck (f : PDFFile) (data : JVal) : Except RegionsError LoadedDoc :=
  match getVersion data with
  | .error e => .error e
  | .ok v =>
    if v.1 ≠ 1 ∨ v.2.1 > 0 then
      .error (.unsupportedVersion v.1 v.2.1 v.2.2)
    else
      match fullLoad data with
      | .error e => .error e
      | .ok result =>
        if result.pdfChecksum ≠ f.checksum then
          .error (.checksumMismatch f.checksum result.pdfChecksum)
        else if result.pdfPages ≠ (f.pageCount : Int) then
          .error (.pageCountMismatch (f.pageCount : Int) result.pdfPages)
        else
          .ok result

/-- `deserialize_regions(data)` (pdffile.py lines 280-305): the cache is
replaced only after every check of `deserializeCheck` has passed; every
error path leaves the store untouched. -/
def deserializeRegions (f : PDFFile) (data : JVal) :
    Except RegionsError LoadedDoc × PDFFile :=
  match deserializeCheck f data with
  | .error e => (.error e, f)
  | .ok result => (.ok result, { f with regions := result.pages })

/-- Decidable equality of `Except` results (needed to evaluate the loaders
on concrete documents). -/
instance {eps alpha : Type} [DecidableEq eps] [DecidableEq alpha] :
    DecidableEq (Except eps alpha) := fun x y =>
  match x, y with
  | .ok a, .ok b =>
    if h : a = b then .isTrue (by rw [h]) else .isFalse (by intro hc; cases hc; exact h rfl)
  | .error e, .error e' =>
    if h : e = e' then .isTrue (by rw [h]) else .isFalse (by intro hc; cases hc; exact h rfl)
  | .ok _, .error _ => .isFalse (by intro hc; cases hc)
  | .error _, .ok _ => .isFalse (by intro hc; cases hc)

/-- The errors a schema loader can produce: only plain validation errors
and the `make_pages` `KeyError`, never one of `deserialize_regions`' own
gate errors. -/
def schemaOnly {α : Type} (x : Except RegionsError α) : Prop :=
  ∀ e, x = Except.error e →
    e = RegionsError.schemaError ∨ e = RegionsError.pagesKeyError

/-! ## Concrete fixtures used by the scenario theorems and witnesses -/

/-- A page with no drawings, no images, and no text blocks. -/
def pageBlank : PageData :=
  { rect := ⟨0, 0, 600, 800⟩, paths := [], images := [], blocks := [],
    extractText := fun _ => "" }

/-- A two-page document with an empty region cache. -/
def fileBlank : PDFFile :=
  { name := "doc.pdf", checksum := "abc", pageCount := 2,
    pageData := fun _ => pageBlank, regions := [] }

/-- The same document with two cached regions on page 0. -/
def fileTwoRegions : PDFFile :=
  { fileBlank with regions := [(0, [⟨0, 0, 1, 1⟩, ⟨2, 2, 3, 3⟩])] }

/-- A single horizontal text block at `(10, 10, 200, 50)`. -/
def blkSingle : Block :=
  { bbox := ⟨10, 10, 200, 50⟩,
    line0 := { bbox := ⟨10, 10, 200, 50⟩, dir := (1, 0), text := "some text" },
    lineRest := [] }

/-- A horizontal text block at `(10, 10, 290, 100)`. -/
def blkLeft : Block :=
  { bbox := ⟨10, 10, 290, 100⟩,
    line0 := { bbox := ⟨10, 10, 290, 100⟩, dir := (1, 0), text := "left column" },
    lineRest := [] }

/-- A horizontal text block at `(310, 10, 590, 100)`. -/
def blkRight : Block :=
  { bbox := ⟨310, 10, 590, 100⟩,
    line0 := { bbox := ⟨310, 10, 590, 100⟩, dir := (1, 0), text := "right column" },
    lineRest := [] }

/-- A document carrying version `2.0.0` and an empty `pages` object but no
`pdf` object at all: it passes the partial version parse yet would fail the
full schema parse. -/
def docVersion2 : JVal :=
  .jobj [(.str "version", .jobj [(.str "major", .jint 2), (.str "minor", .jint 0),
                                 (.str "patch", .jint 0)]),
         (.str "pages", .jobj [])]

/-! ## Theorems -/

theorem alistLookup_alistSet_self {β : Type} (l : List (Int × β)) (k : Int) (v : β) :
    alistLookup (alistSet l k v) k = some v := by
  induction l with
  | nil => simp [alistSet, alistLookup]
  | cons hd tl ih =>
    by_cases h : hd.1 = k
    · simp [alistSet, alistLookup, h]
    · simpa [alistSet, alistLookup, h] using ih

theorem alistSet_of_lookup_eq {β : Type} (l : List (Int × β)) (k : Int) (v : β)
    (h : alistLookup l k = some v) : alistSet l k v = l := by
  induction l with
  | nil => simp [alistLookup] at h
  | cons hd tl ih =>
    obtain ⟨k', v'⟩ := hd
    by_cases hk : k' = k
    · simp [alistLookup, hk] at h
      simp [alistSet, hk, h]
    · simp [alistLookup, hk] at h
      simp [alistSet, hk, ih h]

theorem alistLookup_alistModify_self {β : Type} (g : β → β) (l : List (Int × β)) (k : Int) :
    alistLookup (alistModify g l k) k = (alistLookup l k).map g := by
  induction l with
  | nil => simp [alistModify, alistLookup]
  | cons hd tl ih =>
    by_cases h : hd.1 = k
    · simp [alistModify, alistLookup, h]
    · simpa [alistModify, alistLookup, h] using ih

theorem getRegions_out_of_range (f : PDFFile) (page a b c d : Int) (e : Bool)
    (h : page < 0 ∨ (f.pageCount : Int) ≤ page) :
    getRegions f page a b c d e = (none, f) := by
  simp [getRegions, h]

theorem getRegions_cached (f : PDFFile) (page a b c d : Int) (e : Bool)
    (hin : ¬(page < 0 ∨ (f.pageCount : Int) ≤ page)) (rs : List IRect)
    (hc : alistLookup f.regions page = some rs) :
    getRegions f page a b c d e = (some rs, f) := by
  simp [getRegions, hin, hc]

/-- After an in-range `get_regions` call, the page's cache entry is present
and holds exactly the returned list. -/
theorem getRegions_lookup_eq (f : PDFFile) (page a b c d : Int) (e : Bool)
    (hin : ¬(page < 0 ∨ (f.pageCount : Int) ≤ page)) :
    alistLookup (getRegions f page a b c d e).2.regions page
      = (getRegions f page a b c d e).1 := by
  unfold getRegions
  rw [if_neg hin]
  cases hc : alistLookup f.regions page with
  | some rs => simp [hc]
  | none => simp [hc, alistLookup_alistSet_self]

/-- C2 amended: out-of-range page indices leave the store unchanged and
out-of-bounds region indices on a page with a present cache entry leave the
store unchanged, for `markPageEmpty`/`addRegion`/`modifyRegion`/
`removeRegion`/`reorderRegion` (all total, i.e. non-raising); `clearRegions`,
however, is a bare `dict.pop`: it raises `KeyError` when the page's cache
entry is absent and drops the entry when present.  (When the entry is absent
and the region index is non-negative, the indexed operations additionally
populate the cache as a side effect of their bounds check — see C10.) -/
theorem claim_C2 (f : PDFFile) (page region direction left top right bottom : Int)
    (rs : List IRect) :
    ((page < 0 ∨ (f.pageCount : Int) ≤ page) →
      markPageEmpty f page = f ∧
      addRegion f page left top right bottom = f ∧
      modifyRegion f page region left top right bottom = f ∧
      removeRegion f page region = f ∧
      reorderRegion f page region direction = (region, f)) ∧
    (¬(page < 0 ∨ (f.pageCount : Int) ≤ page) →
      alistLookup f.regions page = some rs →
      (region < 0 ∨ (rs.length : Int) ≤ region) →
      modifyRegion f page region left top right bottom = f ∧
      removeRegion f page region = f ∧
      reorderRegion f page region direction = (region, f)) ∧
    (alistLookup f.regions page = none →
      clearRegions f page = .error "KeyError") ∧
    (alistLookup f.regions page = some rs →
      clearRegions f page = .ok { f with regions := alistErase f.regions page }) := by
  refine ⟨fun h => ?_, fun hin hc hreg => ?_, fun hnone => ?_, fun hsome => ?_⟩
  · refine ⟨?_, ?_, ?_, ?_, ?_⟩
    · simp [markPageEmpty, h]
    · simp [addRegion, h]
    · unfold modifyRegion
      rw [if_pos (by tauto)]
    · unfold removeRegion
      rw [if_pos (by tauto)]
    · unfold reorderRegion
      rw [if_pos (by tauto)]
  · rcases hreg with hneg | hlen
    · refine ⟨?_, ?_, ?_⟩
      · unfold modifyRegion
        rw [if_pos (by tauto)]
      · unfold removeRegion
        rw [if_pos (by tauto)]
      · unfold reorderRegion
        rw [if_pos (by tauto)]
    · by_cases hneg : region < 0
      · refine ⟨?_, ?_, ?_⟩
        · unfold modifyRegion
          rw [if_pos (by tauto)]
        · unfold removeRegion
          rw [if_pos (by tauto)]
        · unfold reorderRegion
          rw [if_pos (by tauto)]
      · have hcond : ¬(page < 0 ∨ (f.pageCount : Int) ≤ page ∨ region < 0) := by tauto
        refine ⟨?_, ?_, ?_⟩
        · unfold modifyRegion
          rw [if_neg hcond, getRegions_cached f page 0 0 0 0 false hin rs hc]
          simp [hlen]
        · unfold removeRegion
          rw [if_neg hcond, getRegions_cached f page 0 0 0 0 false hin rs hc]
          simp [hlen]
        · unfold reorderRegion
          rw [if_neg hcond, getRegions_cached f page 0 0 0 0 false hin rs hc]
          simp [hlen]
  · simp [clearRegions, hnone]
  · simp [clearRegions, hsome]

/-- Witness for the C2 amended theorem at concrete inputs: page 5 is out of
range for the two-page store, index 7 is out of bounds for the two cached
regions, the blank store has no entry for page 0 while the seeded store
has one. -/
theorem claim_C2_witness :
    (markPageEmpty fileTwoRegions 5 = fileTwoRegions ∧
      addRegion fileTwoRegions 5 1 1 4 4 = fileTwoRegions ∧
      modifyRegion fileTwoRegions 5 7 1 1 4 4 = fileTwoRegions ∧
      removeRegion fileTwoRegions 5 7 = fileTwoRegions ∧
      reorderRegion fileTwoRegions 5 7 1 = (7, fileTwoRegions)) ∧
    (modifyRegion fileTwoRegions 0 7 1 1 4 4 = fileTwoRegions ∧
      removeRegion fileTwoRegions 0 7 = fileTwoRegions ∧
      reorderRegion fileTwoRegions 0 7 1 = (7, fileTwoRegions)) ∧
    clearRegions fileBlank 5 = .error "KeyError" ∧
    clearRegions fileTwoRegions 0
      = .ok { fileTwoRegions with regions := alistErase fileTwoRegions.regions 0 } := by
  refine ⟨?_, ?_, ?_, ?_⟩
  · exact (claim_C2 fileTwoRegions 5 7 1 1 1 4 4 []).1 (by decide)
  · exact (claim_C2 fileTwoRegions 0 7 1 1 1 4 4 [⟨0, 0, 1, 1⟩, ⟨2, 2, 3, 3⟩]).2.1
      (by decide) (by decide) (by decide)
  · exact (claim_C2 fileBlank 5 0 0 0 0 0 0 []).2.2.1 (by decide)
  · exact (claim_C2 fileTwoRegions 0 0 0 0 0 0 0 [⟨0, 0, 1, 1⟩, ⟨2, 2, 3, 3⟩]).2.2.2
      (by decide)

/-- An in-range `get_regions` call always answers with a list. -/
theorem getRegions_fst_isSome (f : PDFFile) (page a b c d : Int) (e : Bool)
    (hin : ¬(page < 0 ∨ (f.pageCount : Int) ≤ page)) :
    ((getRegions f page a b c d e).1).isSome = true := by
  unfold getRegions
  rw [if_neg hin]
  cases alistLookup f.regions page <;> simp

/-- C10 amended: for an in-range page and a **non-negative** region index,
`removeRegion`/`modifyRegion`/`reorderRegion`/`convertRegionToText` leave a
cache entry present for the page (their bounds check runs `get_regions` with
default zero margins, populating the cache on a miss), even when the index
is out of bounds and the operation otherwise does nothing.  For a negative
region index the bounds check short-circuits before `get_regions` and no
entry is created (see the counterexample). -/
theorem claim_C10 (f : PDFFile) (page region left top right bottom direction : Int)
    (concat : Bool)
    (hin : ¬(page < 0 ∨ (f.pageCount : Int) ≤ page)) (hreg : 0 ≤ region) :
    (alistLookup (removeRegion f page region).regions page).isSome = true ∧
    (alistLookup (modifyRegion f page region left top right bottom).regions page).isSome
      = true ∧
    (alistLookup (reorderRegion f page region direction).2.regions page).isSome = true ∧
    (alistLookup (convertRegionToText f page region concat).2.regions page).isSome
      = true := by
  have hcond : ¬(page < 0 ∨ (f.pageCount : Int) ≤ page ∨ region < 0) := by
    push_neg at hin ⊢
    exact ⟨hin.1, hin.2, by omega⟩
  have hsome : (alistLookup (getRegions f page 0 0 0 0 false).2.regions page).isSome
      = true := by
    rw [getRegions_lookup_eq f page 0 0 0 0 false hin]
    exact getRegions_fst_isSome f page 0 0 0 0 false hin
  refine ⟨?_, ?_, ?_, ?_⟩
  · simp only [removeRegion]
    rw [if_neg hcond]
    split_ifs with h
    · exact hsome
    · simpa [alistLookup_alistModify_self] using hsome
  · simp only [modifyRegion]
    rw [if_neg hcond]
    split_ifs with h h'
    · exact hsome
    · exact hsome
    · simpa [alistLookup_alistModify_self] using hsome
  · simp only [reorderRegion]
    rw [if_neg hcond]
    split_ifs with h
    · exact hsome
    · simp [alistLookup_alistSet_self]
  · simp only [convertRegionToText]
    rw [if_neg hcond]
    split_ifs with h
    · exact hsome
    · exact hsome

/-- Witness for the C10 amended theorem: on the blank two-page store, each
of the four operations with in-range page 0 and out-of-bounds index 5
leaves a cache entry for page 0. -/
theorem claim_C10_witness :
    (alistLookup (removeRegion fileBlank 0 5).regions 0).isSome = true ∧
    (alistLookup (modifyRegion fileBlank 0 5 1 1 4 4).regions 0).isSome = true ∧
    (alistLookup (reorderRegion fileBlank 0 5 1).2.regions 0).isSome = true ∧
    (alistLookup (convertRegionToText fileBlank 0 5 false).2.regions 0).isSome = true :=
  claim_C10 fileBlank 0 5 1 1 4 4 1 false (by decide) (by decide)

/-- The clamp lands in `[0, limit - 1]` whenever that interval is
non-empty. -/
theorem clampCoord_mem (x limit : Int) :
    0 ≤ clampCoord x limit ∧ (1 ≤ limit → clampCoord x limit ≤ limit - 1) := by
  unfold clampCoord
  constructor
  · exact le_max_left 0 _
  · intro h
    exact max_le (by omega) (min_le_right x (limit - 1))

/-- C8: `addRegion` and `modifyRegion` use the four coordinates clamped by
`max(0, min(·, pageW-1))` / `max(0, min(·, pageH-1))` — which lie in
`[0, pageW-1]` resp. `[0, pageH-1]` whenever those intervals are non-empty —
and if after clamping `left' ≥ right'` or `top' ≥ bottom'` the operation is
a silent no-op leaving the store (hence the page's region list) exactly as
before the call; otherwise `addRegion` appends exactly the clamped
rectangle and `modifyRegion` replaces the indexed region by it.  Stated for
a page whose cache entry is present (`rs`); in the absent-entry case the
bounds check of `modifyRegion` additionally populates the cache (see
C10). -/
theorem claim_C8 (f : PDFFile) (page region left top right bottom : Int)
    (rs : List IRect)
    (hin : ¬(page < 0 ∨ (f.pageCount : Int) ≤ page))
    (hc : alistLookup f.regions page = some rs) :
    (0 ≤ clampCoord left (pageW f page) ∧ 0 ≤ clampCoord right (pageW f page) ∧
      0 ≤ clampCoord top (pageH f page) ∧ 0 ≤ clampCoord bottom (pageH f page)) ∧
    (1 ≤ pageW f page →
      clampCoord left (pageW f page) ≤ pageW f page - 1 ∧
      clampCoord right (pageW f page) ≤ pageW f page - 1) ∧
    (1 ≤ pageH f page →
      clampCoord top (pageH f page) ≤ pageH f page - 1 ∧
      clampCoord bottom (pageH f page) ≤ pageH f page - 1) ∧
    ((clampCoord right (pageW f page) ≤ clampCoord left (pageW f page) ∨
      clampCoord bottom (pageH f page) ≤ clampCoord top (pageH f page)) →
      addRegion f page left top right bottom = f ∧
      modifyRegion f page region left top right bottom = f) ∧
    (¬(clampCoord right (pageW f page) ≤ clampCoord left (pageW f page) ∨
       clampCoord bottom (pageH f page) ≤ clampCoord top (pageH f page)) →
      alistLookup (addRegion f page left top right bottom).regions page
        = some (rs ++ [⟨clampCoord left (pageW f page), clampCoord top (pageH f page),
                        clampCoord right (pageW f page), clampCoord bottom (pageH f page)⟩]) ∧
      (0 ≤ region → region < (rs.length : Int) →
        alistLookup (modifyRegion f page region left top right bottom).regions page
          = some (rs.set region.toNat
              ⟨clampCoord left (pageW f page), clampCoord top (pageH f page),
               clampCoord right (pageW f page), clampCoord bottom (pageH f page)⟩))) := by
  refine ⟨⟨(clampCoord_mem left _).1, (clampCoord_mem right _).1,
           (clampCoord_mem top _).1, (clampCoord_mem bottom _).1⟩,
          fun hw => ⟨(clampCoord_mem left _).2 hw, (clampCoord_mem right _).2 hw⟩,
          fun hh => ⟨(clampCoord_mem top _).2 hh, (clampCoord_mem bottom _).2 hh⟩,
          fun hdeg => ⟨?_, ?_⟩, fun hdeg => ⟨?_, fun hr0 hrl => ?_⟩⟩
  · simp only [addRegion]
    rw [if_neg hin, if_pos hdeg]
  · by_cases hneg : region < 0
    · simp only [modifyRegion]
      rw [if_pos (by tauto)]
    · simp only [modifyRegion]
      rw [if_neg (by tauto), getRegions_cached f page 0 0 0 0 false hin rs hc]
      by_cases hlen : (rs.length : Int) ≤ region
      · simp [hlen]
      · simp [hlen, hdeg]
  · simp only [addRegion]
    rw [if_neg hin, if_neg hdeg, getRegions_cached f page 0 0 0 0 false hin rs hc]
    simp [alistLookup_alistModify_self, hc]
  · have hcond : ¬(page < 0 ∨ (f.pageCount : Int) ≤ page ∨ region < 0) := by
      push_neg at hin ⊢
      exact ⟨hin.1, hin.2, by omega⟩
    have hlen : ¬((rs.length : Int) ≤ region) := by omega
    simp only [modifyRegion]
    rw [if_neg hcond, getRegions_cached f page 0 0 0 0 false hin rs hc]
    simp [hlen, hdeg, alistLookup_alistModify_self, hc]

/-- Witness for C8 on the seeded store: the page is 600 × 800, the raw
coordinates `(700, -5, 900, 10)` clamp to `(599, 0, 599, 9)`, which is
degenerate horizontally, so both operations are no-ops; and the
non-degenerate raw coordinates `(1, 1, 700, 4)` clamp to `(1, 1, 599, 4)`
and are appended / written in place. -/
theorem claim_C8_witness :
    (addRegion fileTwoRegions 0 700 (-5) 900 10 = fileTwoRegions ∧
      modifyRegion fileTwoRegions 0 1 700 (-5) 900 10 = fileTwoRegions) ∧
    alistLookup (addRegion fileTwoRegions 0 1 1 700 4).regions 0
      = some ([⟨0, 0, 1, 1⟩, ⟨2, 2, 3, 3⟩] ++ [⟨1, 1, 599, 4⟩]) ∧
    alistLookup (modifyRegion fileTwoRegions 0 1 1 1 700 4).regions 0
      = some ([⟨0, 0, 1, 1⟩, ⟨2, 2, 3, 3⟩].set 1 ⟨1, 1, 599, 4⟩) := by
  refine ⟨?_, ?_, ?_⟩
  · exact (claim_C8 fileTwoRegions 0 1 700 (-5) 900 10 [⟨0, 0, 1, 1⟩, ⟨2, 2, 3, 3⟩]
      (by decide) (by decide)).2.2.2.1 (by decide)
  · exact ((claim_C8 fileTwoRegions 0 1 1 1 700 4 [⟨0, 0, 1, 1⟩, ⟨2, 2, 3, 3⟩]
      (by decide) (by decide)).2.2.2.2 (by decide)).1
  · exact ((claim_C8 fileTwoRegions 0 1 1 1 700 4 [⟨0, 0, 1, 1⟩, ⟨2, 2, 3, 3⟩]
      (by decide) (by decide)).2.2.2.2 (by decide)).2 (by decide) (by decide)

theorem length_swapAdj (l : List IRect) (i : Nat) :
    (swapAdj l i).length = l.length := by
  simp [swapAdj]

theorem swapAdj_cons_zero (x y : IRect) (t : List IRect) :
    swapAdj (x :: y :: t) 0 = y :: x :: t := by
  simp [swapAdj]

theorem swapAdj_cons_succ (x : IRect) (t : List IRect) (i : Nat) :
    swapAdj (x :: t) (i + 1) = x :: swapAdj t i := by
  simp [swapAdj]

theorem perm_swapAdj (l : List IRect) (i : Nat) (h : i + 1 < l.length) :
    (swapAdj l i).Perm l := by
  induction l generalizing i with
  | nil => simp at h
  | cons x t ih =>
    cases i with
    | zero =>
      cases t with
      | nil => simp at h
      | cons y t' =>
        rw [swapAdj_cons_zero]
        exact List.Perm.swap x y t'
    | succ i =>
      rw [swapAdj_cons_succ]
      exact (ih i (by simpa using h)).cons x

theorem getD_swapAdj_fst (l : List IRect) (i : Nat) (h : i + 1 < l.length) :
    (swapAdj l i).getD i default = l.getD (i + 1) default := by
  induction l generalizing i with
  | nil => simp at h
  | cons x t ih =>
    cases i with
    | zero =>
      cases t with
      | nil => simp at h
      | cons y t' => rw [swapAdj_cons_zero]; simp
    | succ i =>
      rw [swapAdj_cons_succ]
      simpa using ih i (by simpa using h)

theorem getD_swapAdj_snd (l : List IRect) (i : Nat) (h : i + 1 < l.length) :
    (swapAdj l i).getD (i + 1) default = l.getD i default := by
  induction l generalizing i with
  | nil => simp at h
  | cons x t ih =>
    cases i with
    | zero =>
      cases t with
      | nil => simp at h
      | cons y t' => rw [swapAdj_cons_zero]; simp
    | succ i =>
      rw [swapAdj_cons_succ]
      simpa using ih i (by simpa using h)

theorem swapAdj_swapAdj (l : List IRect) (i : Nat) (h : i + 1 < l.length) :
    swapAdj (swapAdj l i) i = l := by
  induction l generalizing i with
  | nil => simp at h
  | cons x t ih =>
    cases i with
    | zero =>
      cases t with
      | nil => simp at h
      | cons y t' => rw [swapAdj_cons_zero, swapAdj_cons_zero]
    | succ i =>
      rw [swapAdj_cons_succ, swapAdj_cons_succ, ih i (by simpa using h)]

/-- Invariants of the "move up" loop: the result is a permutation of the
input of the same length, the final index does not exceed the initial one,
and the moved element is found at the final index. -/
theorem moveUpN_spec (n : Nat) : ∀ (l : List IRect) (r : Nat), r < l.length →
    (moveUpN l r n).1.Perm l ∧ (moveUpN l r n).1.length = l.length ∧
    (moveUpN l r n).2 ≤ r ∧
    (moveUpN l r n).1.getD (moveUpN l r n).2 default = l.getD r default := by
  induction n with
  | zero => intro l r h; exact ⟨List.Perm.refl l, rfl, Nat.le_refl r, rfl⟩
  | succ n ih =>
    intro l r h
    by_cases hr : r = 0
    · simp only [moveUpN, hr, if_pos rfl]
      exact ⟨List.Perm.refl l, rfl, Nat.le_refl 0, rfl⟩
    · obtain ⟨r', rfl⟩ : ∃ r', r = r' + 1 := ⟨r - 1, by omega⟩
      simp only [moveUpN, if_neg hr, Nat.add_sub_cancel]
      have hlen : r' + 1 < l.length := h
      have hstep : r' < (swapAdj l r').length := by rw [length_swapAdj]; omega
      obtain ⟨p1, p2, p3, p4⟩ := ih (swapAdj l r') r' hstep
      refine ⟨p1.trans (perm_swapAdj l r' hlen), ?_, by omega, ?_⟩
      · rw [p2, length_swapAdj]
      · rw [p4, getD_swapAdj_fst l r' hlen]

/-- Invariants of the "move down" loop: the result is a permutation of the
input of the same length, the final index stays within the list and at or
after the initial one, and the moved element is found at the final index. -/
theorem moveDownN_spec (n : Nat) : ∀ (l : List IRect) (r : Nat), r < l.length →
    (moveDownN l r n).1.Perm l ∧ (moveDownN l r n).1.length = l.length ∧
    r ≤ (moveDownN l r n).2 ∧ (moveDownN l r n).2 < l.length ∧
    (moveDownN l r n).1.getD (moveDownN l r n).2 default = l.getD r default := by
  induction n with
  | zero => intro l r h; exact ⟨List.Perm.refl l, rfl, Nat.le_refl r, h, rfl⟩
  | succ n ih =>
    intro l r h
    by_cases hr : l.length - 1 ≤ r
    · have heq : moveDownN l r (n + 1) = (l, r) := by
        simp [moveDownN, hr]
      rw [heq]
      exact ⟨List.Perm.refl l, rfl, Nat.le_refl r, h, rfl⟩
    · simp only [moveDownN, if_neg hr]
      have hlen : r + 1 < l.length := by omega
      have hstep : r + 1 < (swapAdj l r).length := by rw [length_swapAdj]; omega
      obtain ⟨p1, p2, p3, p4, p5⟩ := ih (swapAdj l r) (r + 1) hstep
      rw [length_swapAdj] at p4
      refine ⟨p1.trans (perm_swapAdj l r hlen), ?_, by omega, p4, ?_⟩
      · rw [p2, length_swapAdj]
      · rw [p5, getD_swapAdj_snd l r hlen]

/-- Invariants of the combined reorder loops. -/
theorem reorderCore_spec (l : List IRect) (r : Nat) (d : Int) (h : r < l.length) :
    (reorderCore l r d).1.Perm l ∧ (reorderCore l r d).1.length = l.length ∧
    (reorderCore l r d).2 < l.length ∧
    (reorderCore l r d).1.getD (reorderCore l r d).2 default = l.getD r default := by
  unfold reorderCore
  split_ifs with hd
  · obtain ⟨p1, p2, p3, p4⟩ := moveUpN_spec (-d).toNat l r h
    exact ⟨p1, p2, by omega, p4⟩
  · obtain ⟨p1, p2, p3, p4, p5⟩ := moveDownN_spec d.toNat l r h
    exact ⟨p1, p2, p4, p5⟩

theorem getRegions_pageCount (f : PDFFile) (page a b c d : Int) (e : Bool) :
    (getRegions f page a b c d e).2.pageCount = f.pageCount := by
  unfold getRegions
  split
  · rfl
  · split <;> rfl

/-- C9: for an in-range page and in-range region index, `reorder_region`
leaves the page's region list a permutation of its previous contents (the
list is rearranged only by adjacent swaps, so nothing is created, lost, or
modified), and the region previously at the given index sits at the
returned index afterwards. -/
theorem claim_C9 (f : PDFFile) (page region direction : Int) (rs : List IRect)
    (hin : ¬(page < 0 ∨ (f.pageCount : Int) ≤ page))
    (hc : (getRegions f page 0 0 0 0 false).1 = some rs)
    (hr0 : 0 ≤ region) (hrl : region < (rs.length : Int)) :
    ∃ rs', alistLookup (reorderRegion f page region direction).2.regions page = some rs' ∧
      rs'.Perm rs ∧
      0 ≤ (reorderRegion f page region direction).1 ∧
      (reorderRegion f page region direction).1 < (rs.length : Int) ∧
      rs'.getD (reorderRegion f page region direction).1.toNat default
        = rs.getD region.toNat default := by
  have hcond : ¬(page < 0 ∨ (f.pageCount : Int) ≤ page ∨ region < 0) := by
    push_neg at hin ⊢
    exact ⟨hin.1, hin.2, by omega⟩
  have hnat : region.toNat < rs.length := by omega
  obtain ⟨p1, p2, p3, p4⟩ := reorderCore_spec rs region.toNat direction hnat
  have hlen : ¬((rs.length : Int) ≤ region) := by omega
  have hre : reorderRegion f page region direction
      = (((reorderCore rs region.toNat direction).2 : Int),
         { (getRegions f page 0 0 0 0 false).2 with
           regions := alistSet (getRegions f page 0 0 0 0 false).2.regions page
             (reorderCore rs region.toNat direction).1 }) := by
    simp only [reorderRegion]
    rw [if_neg hcond]
    simp [hc, hlen]
  rw [hre]
  refine ⟨(reorderCore rs region.toNat direction).1,
    alistLookup_alistSet_self _ _ _, p1, Int.natCast_nonneg _, ?_, ?_⟩
  · show ((reorderCore rs region.toNat direction).2 : Int) < (rs.length : Int)
    exact_mod_cast p3
  · show (reorderCore rs region.toNat direction).1.getD
        (((reorderCore rs region.toNat direction).2 : Int)).toNat default
      = rs.getD region.toNat default
    simpa using p4

/-- Witness for C9: moving the first of the two seeded regions down by one
keeps the list a permutation and tracks the moved region to index 1. -/
theorem claim_C9_witness :
    ∃ rs', alistLookup (reorderRegion fileTwoRegions 0 0 1).2.regions 0 = some rs' ∧
      rs'.Perm [⟨0, 0, 1, 1⟩, ⟨2, 2, 3, 3⟩] ∧
      0 ≤ (reorderRegion fileTwoRegions 0 0 1).1 ∧
      (reorderRegion fileTwoRegions 0 0 1).1
        < (([⟨0, 0, 1, 1⟩, ⟨2, 2, 3, 3⟩] : List IRect).length : Int) ∧
      rs'.getD (reorderRegion fileTwoRegions 0 0 1).1.toNat default
        = ([⟨0, 0, 1, 1⟩, ⟨2, 2, 3, 3⟩] : List IRect).getD ((0 : Int)).toNat default :=
  claim_C9 fileTwoRegions 0 0 1 [⟨0, 0, 1, 1⟩, ⟨2, 2, 3, 3⟩]
    (by decide) (by decide) (by decide) (by decide)

/-- C3 amended: for an in-range page and an **in-range** index,
`reorder_region` returns an index in `[0, len-1]` (out-of-range indices are
returned unchanged, not clamped — see the counterexample); and the
`delta = +1` then `delta = -1` round trip restores the page's region list
provided the region is **not already last** (at the last index the `+1` call
is a clamped no-op and the subsequent `-1` call moves the region up — see
the counterexample). -/
theorem claim_C3 (f : PDFFile) (page region direction : Int) (rs : List IRect)
    (hin : ¬(page < 0 ∨ (f.pageCount : Int) ≤ page))
    (hc : (getRegions f page 0 0 0 0 false).1 = some rs) :
    (0 ≤ region → region < (rs.length : Int) →
      0 ≤ (reorderRegion f page region direction).1 ∧
      (reorderRegion f page region direction).1 < (rs.length : Int)) ∧
    (0 ≤ region → region + 1 < (rs.length : Int) →
      (reorderRegion f page region 1).1 = region + 1 ∧
      (reorderRegion (reorderRegion f page region 1).2 page (region + 1) (-1)).1
        = region ∧
      alistLookup
          (reorderRegion (reorderRegion f page region 1).2 page (region + 1) (-1)).2.regions
          page
        = some rs) := by
  constructor
  · intro hr0 hrl
    have hcond : ¬(page < 0 ∨ (f.pageCount : Int) ≤ page ∨ region < 0) := by
      push_neg at hin ⊢
      exact ⟨hin.1, hin.2, by omega⟩
    have hnat : region.toNat < rs.length := by omega
    obtain ⟨_, _, p3, _⟩ := reorderCore_spec rs region.toNat direction hnat
    have hlen : ¬((rs.length : Int) ≤ region) := by omega
    have hre : (reorderRegion f page region direction).1
        = ((reorderCore rs region.toNat direction).2 : Int) := by
      simp only [reorderRegion]
      rw [if_neg hcond]
      simp [hc, hlen]
    rw [hre]
    exact ⟨Int.natCast_nonneg _, by exact_mod_cast p3⟩
  · intro hr0 hlast
    have hcond : ¬(page < 0 ∨ (f.pageCount : Int) ≤ page ∨ region < 0) := by
      push_neg at hin ⊢
      exact ⟨hin.1, hin.2, by omega⟩
    have hlen : ¬((rs.length : Int) ≤ region) := by omega
    have hnat1 : region.toNat + 1 < rs.length := by omega
    have hdown : reorderCore rs region.toNat 1
        = (swapAdj rs region.toNat, region.toNat + 1) := by
      unfold reorderCore
      rw [if_neg (by omega)]
      simp only [Int.toNat_one, moveDownN]
      rw [if_neg (by omega)]
    have hre1 : reorderRegion f page region 1
        = ((region + 1 : Int),
           { (getRegions f page 0 0 0 0 false).2 with
             regions := alistSet (getRegions f page 0 0 0 0 false).2.regions page
               (swapAdj rs region.toNat) }) := by
      simp only [reorderRegion]
      rw [if_neg hcond]
      simp [hc, hlen, hdown]
      omega
    have hfst : (reorderRegion f page region 1).1 = region + 1 := by rw [hre1]
    refine ⟨hfst, ?_, ?_⟩
    all_goals {
      rw [hre1]
      have hpc : ({ (getRegions f page 0 0 0 0 false).2 with
          regions := alistSet (getRegions f page 0 0 0 0 false).2.regions page
            (swapAdj rs region.toNat) } : PDFFile).pageCount = f.pageCount := by
        rw [getRegions_pageCount]
      have hin2 : ¬(page < 0 ∨
          (({ (getRegions f page 0 0 0 0 false).2 with
              regions := alistSet (getRegions f page 0 0 0 0 false).2.regions page
                (swapAdj rs region.toNat) } : PDFFile).pageCount : Int) ≤ page) := by
        rw [hpc]
        exact hin
      have hcond2 : ¬(page < 0 ∨
          (({ (getRegions f page 0 0 0 0 false).2 with
              regions := alistSet (getRegions f page 0 0 0 0 false).2.regions page
                (swapAdj rs region.toNat) } : PDFFile).pageCount : Int) ≤ page ∨
          region + 1 < 0) := by
        rw [hpc]
        push_neg at hin ⊢
        exact ⟨hin.1, hin.2, by omega⟩
      have hc2 : alistLookup ({ (getRegions f page 0 0 0 0 false).2 with
          regions := alistSet (getRegions f page 0 0 0 0 false).2.regions page
            (swapAdj rs region.toNat) } : PDFFile).regions page
          = some (swapAdj rs region.toNat) := alistLookup_alistSet_self _ _ _
      have hlen2 : ¬(((swapAdj rs region.toNat).length : Int) ≤ region + 1) := by
        rw [length_swapAdj]
        omega
      have hup : reorderCore (swapAdj rs region.toNat) (region + 1).toNat (-1)
          = (rs, region.toNat) := by
        unfold reorderCore
        rw [if_pos (by omega)]
        have ht : (region + 1).toNat = region.toNat + 1 := by omega
        rw [ht]
        show moveUpN (swapAdj rs region.toNat) (region.toNat + 1) (1 : Nat) = _
        simp only [moveUpN]
        rw [if_neg (by omega), Nat.add_sub_cancel, swapAdj_swapAdj rs region.toNat hnat1]
      simp only [reorderRegion]
      rw [if_neg hcond2, getRegions_cached _ page 0 0 0 0 false hin2 _ hc2]
      simp [hlen2, hup, alistLookup_alistSet_self]
      try omega
    }

/-- Witness for the C3 amended theorem: on the seeded two-region store, a
`+1`/`-1` round trip on index 0 returns to index 0 and restores the cached
list, and the returned index is always within `[0, 1]` for in-range
calls. -/
theorem claim_C3_witness :
    (0 ≤ (reorderRegion fileTwoRegions 0 0 3).1 ∧
      (reorderRegion fileTwoRegions 0 0 3).1
        < (([⟨0, 0, 1, 1⟩, ⟨2, 2, 3, 3⟩] : List IRect).length : Int)) ∧
    ((reorderRegion fileTwoRegions 0 0 1).1 = 0 + 1 ∧
      (reorderRegion (reorderRegion fileTwoRegions 0 0 1).2 0 (0 + 1) (-1)).1 = 0 ∧
      alistLookup
          (reorderRegion (reorderRegion fileTwoRegions 0 0 1).2 0 (0 + 1) (-1)).2.regions 0
        = some [⟨0, 0, 1, 1⟩, ⟨2, 2, 3, 3⟩]) := by
  have h := claim_C3 fileTwoRegions 0 0 3 [⟨0, 0, 1, 1⟩, ⟨2, 2, 3, 3⟩]
    (by decide) (by decide)
  exact ⟨h.1 (by decide) (by decide), h.2 (by decide) (by decide)⟩

theorem schemaOnly_ok {α : Type} (a : α) : schemaOnly (Except.ok a) := by
  intro e h
  simp at h

theorem schemaOnly_err_schema {α : Type} :
    schemaOnly (Except.error RegionsError.schemaError : Except RegionsError α) := by
  intro e h
  simp at h
  exact Or.inl h.symm

theorem schemaOnly_err_pages {α : Type} :
    schemaOnly (Except.error RegionsError.pagesKeyError : Except RegionsError α) := by
  intro e h
  simp at h
  exact Or.inr h.symm

theorem schemaOnly_bind {α β : Type} {x : Except RegionsError α}
    {g : α → Except RegionsError β} (hx : schemaOnly x)
    (hg : ∀ a, schemaOnly (g a)) : schemaOnly (x >>= g) := by
  intro e h
  cases x with
  | error e' =>
    have : e' = e := by
      have hb : (Except.error e' >>= g : Except RegionsError β) = Except.error e' := rfl
      rw [hb] at h
      simpa using h
    exact hx e (by rw [this])
  | ok a =>
    have hb : (Except.ok a >>= g : Except RegionsError β) = g a := rfl
    rw [hb] at h
    exact hg a e h

theorem schemaOnly_map {α β : Type} (g : α → β) {x : Except RegionsError α}
    (hx : schemaOnly x) : schemaOnly (x.map g) := by
  intro e h
  cases x with
  | error e' =>
    simp [Except.map] at h
    exact hx e (by rw [h])
  | ok a => simp [Except.map] at h

theorem schemaOnly_loadInt (v : JVal) : schemaOnly (loadInt v) := by
  cases v with
  | jint n => exact schemaOnly_ok n
  | jstr s =>
    cases hs : s.toInt? with
    | none =>
      intro e h
      simp [loadInt, hs] at h
      exact Or.inl h.symm
    | some n =>
      intro e h
      simp [loadInt, hs] at h
  | jnull => exact schemaOnly_err_schema
  | jbool b => exact schemaOnly_err_schema
  | jarr xs => exact schemaOnly_err_schema
  | jobj entries => exact schemaOnly_err_schema

theorem schemaOnly_loadStr (v : JVal) : schemaOnly (loadStr v) := by
  cases v with
  | jstr s => exact schemaOnly_ok s
  | jnull => exact schemaOnly_err_schema
  | jbool b => exact schemaOnly_err_schema
  | jint n => exact schemaOnly_err_schema
  | jarr xs => exact schemaOnly_err_schema
  | jobj entries => exact schemaOnly_err_schema

theorem schemaOnly_loadBool (v : JVal) : schemaOnly (loadBool v) := by
  cases v with
  | jbool b => exact schemaOnly_ok b
  | jnull => exact schemaOnly_err_schema
  | jstr s => exact schemaOnly_err_schema
  | jint n => exact schemaOnly_err_schema
  | jarr xs => exact schemaOnly_err_schema
  | jobj entries => exact schemaOnly_err_schema

theorem schemaOnly_loadKey (k : JKey) : schemaOnly (loadKey k) := by
  cases k with
  | int n => exact schemaOnly_ok n
  | str s =>
    cases hs : s.toInt? with
    | none =>
      intro e h
      simp [loadKey, hs] at h
      exact Or.inl h.symm
    | some n =>
      intro e h
      simp [loadKey, hs] at h

theorem schemaOnly_loadReqField {α : Type} (p : Bool) (entries : List (JKey × JVal))
    (name : String) (parse : JVal → Except RegionsError α)
    (hp : ∀ v, schemaOnly (parse v)) :
    schemaOnly (loadReqField p entries name parse) := by
  unfold loadReqField
  cases jlookup entries name with
  | none =>
    cases p with
    | true => exact schemaOnly_ok none
    | false => exact schemaOnly_err_schema
  | some v => exact schemaOnly_map some (hp v)

theorem schemaOnly_loadOptField {α : Type} (entries : List (JKey × JVal))
    (name : String) (parse : JVal → Except RegionsError α)
    (hp : ∀ v, schemaOnly (parse v)) :
    schemaOnly (loadOptField entries name parse) := by
  unfold loadOptField
  cases jlookup entries name with
  | none => exact schemaOnly_ok none
  | some v => exact schemaOnly_map some (hp v)

theorem schemaOnly_exMapM {α β : Type} (g : α → Except RegionsError β)
    (hg : ∀ a, schemaOnly (g a)) (l : List α) : schemaOnly (exMapM g l) := by
  induction l with
  | nil => exact schemaOnly_ok []
  | cons x xs ih =>
    exact schemaOnly_bind (hg x) fun y => schemaOnly_bind ih fun ys => schemaOnly_ok _

theorem schemaOnly_loadRow (v : JVal) : schemaOnly (loadRow v) := by
  cases v with
  | jarr ys =>
    refine schemaOnly_bind (schemaOnly_exMapM loadInt schemaOnly_loadInt ys) fun ns => ?_
    by_cases h : ns.length = 4
    · simpa [h] using schemaOnly_ok ns
    · simpa [h] using (schemaOnly_err_schema : schemaOnly (α := List Int) _)
  | jnull => exact schemaOnly_err_schema
  | jbool b => exact schemaOnly_err_schema
  | jint n => exact schemaOnly_err_schema
  | jstr s => exact schemaOnly_err_schema
  | jobj entries => exact schemaOnly_err_schema

theorem schemaOnly_loadRows (v : JVal) : schemaOnly (loadRows v) := by
  cases v with
  | jarr xs => exact schemaOnly_exMapM loadRow schemaOnly_loadRow xs
  | jnull => exact schemaOnly_err_schema
  | jbool b => exact schemaOnly_err_schema
  | jint n => exact schemaOnly_err_schema
  | jstr s => exact schemaOnly_err_schema
  | jobj entries => exact schemaOnly_err_schema

theorem schemaOnly_loadPagesField (v : JVal) : schemaOnly (loadPagesField v) := by
  cases v with
  | jobj entries =>
    exact schemaOnly_exMapM _
      (fun kv => schemaOnly_bind (schemaOnly_loadKey kv.1) fun k =>
        schemaOnly_bind (schemaOnly_loadRows kv.2) fun rows => schemaOnly_ok _)
      entries
  | jnull => exact schemaOnly_err_schema
  | jbool b => exact schemaOnly_err_schema
  | jint n => exact schemaOnly_err_schema
  | jstr s => exact schemaOnly_err_schema
  | jarr xs => exact schemaOnly_err_schema

theorem schemaOnly_loadVersion (p : Bool) (v : JVal) :
    schemaOnly (loadVersion p v) := by
  cases v with
  | jobj entries =>
    exact schemaOnly_bind (schemaOnly_loadReqField p entries "major" loadInt schemaOnly_loadInt)
      fun major => schemaOnly_bind
        (schemaOnly_loadReqField p entries "minor" loadInt schemaOnly_loadInt)
        fun minor => schemaOnly_bind
          (schemaOnly_loadReqField p entries "patch" loadInt schemaOnly_loadInt)
          fun patch => schemaOnly_ok _
  | jnull => exact schemaOnly_err_schema
  | jbool b => exact schemaOnly_err_schema
  | jint n => exact schemaOnly_err_schema
  | jstr s => exact schemaOnly_err_schema
  | jarr xs => exact schemaOnly_err_schema

theorem schemaOnly_loadPdf (p : Bool) (v : JVal) : schemaOnly (loadPdf p v) := by
  cases v with
  | jobj entries =>
    exact schemaOnly_bind (schemaOnly_loadOptField entries "name" loadStr schemaOnly_loadStr)
      fun name => schemaOnly_bind
        (schemaOnly_loadReqField p entries "checksum" loadStr schemaOnly_loadStr)
        fun checksum => schemaOnly_bind
          (schemaOnly_loadReqField p entries "pages" loadInt schemaOnly_loadInt)
          fun pages => schemaOnly_ok _
  | jnull => exact schemaOnly_err_schema
  | jbool b => exact schemaOnly_err_schema
  | jint n => exact schemaOnly_err_schema
  | jstr s => exact schemaOnly_err_schema
  | jarr xs => exact schemaOnly_err_schema

theorem schemaOnly_loadMargins (p : Bool) (v : JVal) :
    schemaOnly (loadMargins p v) := by
  cases v with
  | jobj entries =>
    exact schemaOnly_bind (schemaOnly_loadReqField p entries "left" loadInt schemaOnly_loadInt)
      fun a => schemaOnly_bind
        (schemaOnly_loadReqField p entries "top" loadInt schemaOnly_loadInt)
        fun b => schemaOnly_bind
          (schemaOnly_loadReqField p entries "right" loadInt schemaOnly_loadInt)
          fun c => schemaOnly_bind
            (schemaOnly_loadReqField p entries "bottom" loadInt schemaOnly_loadInt)
            fun d => schemaOnly_bind
              (schemaOnly_loadReqField p entries "ignore_images" loadBool schemaOnly_loadBool)
              fun i => schemaOnly_ok _
  | jnull => exact schemaOnly_err_schema
  | jbool b => exact schemaOnly_err_schema
  | jint n => exact schemaOnly_err_schema
  | jstr s => exact schemaOnly_err_schema
  | jarr xs => exact schemaOnly_err_schema

theorem schemaOnly_loadSchema (p : Bool) (data : JVal) :
    schemaOnly (loadSchema p data) := by
  cases data with
  | jobj entries =>
    refine schemaOnly_bind
      (schemaOnly_loadReqField p entries "version" (loadVersion p) (schemaOnly_loadVersion p))
      fun version => schemaOnly_bind
        (schemaOnly_loadReqField p entries "pdf" (loadPdf p) (schemaOnly_loadPdf p))
        fun pdf => schemaOnly_bind
          (schemaOnly_loadOptField entries "margins" (loadMargins p) (schemaOnly_loadMargins p))
          fun margins => schemaOnly_bind
            (schemaOnly_loadReqField p entries "pages" loadPagesField schemaOnly_loadPagesField)
            fun pagesRaw => ?_
    cases pagesRaw with
    | none => exact schemaOnly_err_pages
    | some pr => exact schemaOnly_ok _
  | jnull => exact schemaOnly_err_schema
  | jbool b => exact schemaOnly_err_schema
  | jint n => exact schemaOnly_err_schema
  | jstr s => exact schemaOnly_err_schema
  | jarr xs => exact schemaOnly_err_schema

theorem schemaOnly_fullMargins (m : Option RawMargins) :
    schemaOnly (fullMargins m) := by
  cases m with
  | none => exact schemaOnly_ok none
  | some rm =>
    unfold fullMargins
    rcases rm with ⟨a, b, c, d, e⟩
    cases a <;> cases b <;> cases c <;> cases d <;> cases e <;>
      first
        | exact schemaOnly_err_schema
        | exact schemaOnly_ok _

theorem schemaOnly_fullLoad (data : JVal) : schemaOnly (fullLoad data) := by
  intro e h
  unfold fullLoad at h
  split at h
  · rename_i e' heq
    simp at h
    exact schemaOnly_loadSchema false data e (by rw [heq, h])
  · rename_i raw heq
    split at h
    · split at h
      · split at h
        · rename_i hm
          simp at h
          exact schemaOnly_fullMargins _ e (by rw [hm, h])
        · simp at h
      · simp at h
        exact Or.inl h.symm
    · simp at h
      exact Or.inl h.symm

/-- A successful `deserializeCheck` implies the full load succeeded with
that result and both cross-checks passed. -/
theorem deserializeCheck_ok (f : PDFFile) (data : JVal) (result : LoadedDoc)
    (h : deserializeCheck f data = .ok result) :
    fullLoad data = .ok result ∧ result.pdfChecksum = f.checksum ∧
    result.pdfPages = (f.pageCount : Int) := by
  unfold deserializeCheck at h
  split at h
  · exact absurd h (by simp)
  · rename_i v hveq
    by_cases hgate : v.1 ≠ 1 ∨ v.2.1 > 0
    · rw [if_pos hgate] at h
      exact absurd h (by simp)
    · rw [if_neg hgate] at h
      split at h
      · exact absurd h (by simp)
      · rename_i result' heq
        by_cases h1 : result'.pdfChecksum ≠ f.checksum
        · rw [if_pos h1] at h
          exact absurd h (by simp)
        · rw [if_neg h1] at h
          by_cases h2 : result'.pdfPages ≠ (f.pageCount : Int)
          · rw [if_pos h2] at h
            exact absurd h (by simp)
          · rw [if_neg h2] at h
            have hres : result' = result := by simpa using h
            subst hres
            push_neg at h1 h2
            exact ⟨heq, h1, h2⟩

/-- C4: whenever the full schema parse of a document succeeds but its
`pdf.checksum` differs from the live document's checksum, `deserialize`
fails (regardless of `pdf.pages`); symmetrically, a matching checksum but a
mismatching page count also fails; and on every failure — version,
checksum, page count, or schema — the live region cache is untouched (the
returned store is exactly the input store). -/
theorem claim_C4 (f : PDFFile) (data : JVal) :
    (∀ result, fullLoad data = .ok result → result.pdfChecksum ≠ f.checksum →
      ∃ e, (deserializeRegions f data).1 = .error e) ∧
    (∀ result, fullLoad data = .ok result → result.pdfChecksum = f.checksum →
      result.pdfPages ≠ (f.pageCount : Int) →
      ∃ e, (deserializeRegions f data).1 = .error e) ∧
    (∀ e, (deserializeRegions f data).1 = .error e →
      (deserializeRegions f data).2 = f) := by
  refine ⟨fun result hfull hck => ?_, fun result hfull hck hpg => ?_, fun e h => ?_⟩
  · cases hchk : deserializeCheck f data with
    | error e =>
      refine ⟨e, ?_⟩
      unfold deserializeRegions
      rw [hchk]
    | ok result' =>
      obtain ⟨hf, hcs, _⟩ := deserializeCheck_ok f data result' hchk
      rw [hfull] at hf
      cases hf
      exact absurd hcs hck
  · cases hchk : deserializeCheck f data with
    | error e =>
      refine ⟨e, ?_⟩
      unfold deserializeRegions
      rw [hchk]
    | ok result' =>
      obtain ⟨hf, _, hpg'⟩ := deserializeCheck_ok f data result' hchk
      rw [hfull] at hf
      cases hf
      exact absurd hpg' hpg
  · unfold deserializeRegions at h ⊢
    cases hchk : deserializeCheck f data with
    | error e' => rfl
    | ok result' =>
      rw [hchk] at h
      exact absurd h (by simp)

/-- Witness for C4: a document serialized from a store with checksum
`"zzz"` fully loads but mismatches the live checksum `"abc"`; one
serialized from a three-page store matches the checksum but not the page
count; in the first case the returned store is exactly the input store. -/
theorem claim_C4_witness :
    (∃ e, (deserializeRegions fileBlank
        (serializeRegions { fileBlank with checksum := "zzz" } none)).1
      = .error e) ∧
    (∃ e, (deserializeRegions fileBlank
        (serializeRegions { fileBlank with pageCount := 3 } none)).1
      = .error e) ∧
    (deserializeRegions fileBlank
        (serializeRegions { fileBlank with checksum := "zzz" } none)).2
      = fileBlank := by
  refine ⟨?_, ?_, ?_⟩
  · exact (claim_C4 fileBlank _).1 ⟨1, 0, 1, some "doc.pdf", "zzz", 2, none, []⟩
      (by decide) (by decide)
  · exact (claim_C4 fileBlank _).2.1 ⟨1, 0, 1, some "doc.pdf", "abc", 3, none, []⟩
      (by decide) (by decide) (by decide)
  · exact (claim_C4 fileBlank _).2.2 (.checksumMismatch "abc" "zzz") (by decide)

/-- Once the partial version parse has answered, `deserializeCheck` is the
version gate followed by the full parse and the two cross-checks. -/
theorem deserializeCheck_of_getVersion (f : PDFFile) (data : JVal)
    (v : Int × Int × Int) (hv : getVersion data = .ok v) :
    deserializeCheck f data =
      (if v.1 ≠ 1 ∨ v.2.1 > 0 then .error (.unsupportedVersion v.1 v.2.1 v.2.2)
       else
         match fullLoad data with
         | .error e => .error e
         | .ok result =>
           if result.pdfChecksum ≠ f.checksum then
             .error (.checksumMismatch f.checksum result.pdfChecksum)
           else if result.pdfPages ≠ (f.pageCount : Int) then
             .error (.pageCountMismatch (f.pageCount : Int) result.pdfPages)
           else .ok result) := by
  unfold deserializeCheck
  rw [hv]

/-- C5: a document whose partially-parsed version has `major ≠ 1` or
`minor > 0` is always rejected with the "unsupported version" error — the
gate needs only `getVersion`, i.e. it runs before and independently of the
full schema parse —, while `major = 1` and `minor ≤ 0` always pass the
gate: no outcome of the remaining pipeline is an unsupported-version
error. -/
theorem claim_C5 (f : PDFFile) (data : JVal) (major minor patch : Int)
    (hv : getVersion data = .ok (major, minor, patch)) :
    ((major ≠ 1 ∨ 0 < minor) →
      (deserializeRegions f data).1
        = .error (.unsupportedVersion major minor patch)) ∧
    (major = 1 → minor ≤ 0 →
      ∀ M m p, (deserializeRegions f data).1 ≠ .error (.unsupportedVersion M m p)) := by
  constructor
  · intro hgate
    unfold deserializeRegions
    rw [deserializeCheck_of_getVersion f data (major, minor, patch) hv,
      if_pos (by simpa using hgate)]
  · intro h1 h2 M m p hcontra
    unfold deserializeRegions at hcontra
    cases hchk : deserializeCheck f data with
    | ok result =>
      rw [hchk] at hcontra
      exact absurd hcontra (by simp)
    | error e =>
      rw [hchk] at hcontra
      have he : e = .unsupportedVersion M m p := by simpa using hcontra
      subst he
      rw [deserializeCheck_of_getVersion f data (major, minor, patch) hv,
        if_neg (by simp only []; omega)] at hchk
      split at hchk
      · rename_i e' heq
        have he' : e' = RegionsError.unsupportedVersion M m p := by simpa using hchk
        rcases schemaOnly_fullLoad data e' heq with h | h <;> simp [he'] at h
      · split_ifs at hchk with hc1 hc2 <;> simp at hchk

/-- Witness for C5: the version-2 document (which has no `pdf` object, so
its full parse would fail) is rejected by the version gate alone, and a
document serialized by the store itself (version `1.0.1`) is never
rejected as unsupported. -/
theorem claim_C5_witness :
    (deserializeRegions fileBlank docVersion2).1
      = .error (.unsupportedVersion 2 0 0) ∧
    (deserializeRegions fileBlank (serializeRegions fileBlank none)).1
      ≠ .error (.unsupportedVersion 1 0 1) := by
  constructor
  · exact (claim_C5 fileBlank docVersion2 2 0 0 (by decide)).1 (by decide)
  · exact (claim_C5 fileBlank (serializeRegions fileBlank none) 1 0 1 (by decide)).2
      rfl (by decide) 1 0 1

theorem exceptBind_ok {α β : Type} (a : α) (g : α → Except RegionsError β) :
    ((Except.ok a : Except RegionsError α) >>= g) = g a := rfl

theorem exceptMap_ok {α β : Type} (g : α → β) (a : α) :
    Except.map g (Except.ok a : Except RegionsError α) = .ok (g a) := rfl

theorem loadRow_dumpIRect (r : IRect) :
    loadRow (dumpIRect r) = .ok [r.x0, r.y0, r.x1, r.y1] := rfl

theorem loadRows_dump (rs : List IRect) :
    loadRows (.jarr (rs.map dumpIRect))
      = .ok (rs.map fun r => [r.x0, r.y0, r.x1, r.y1]) := by
  induction rs with
  | nil => rfl
  | cons r rest ih =>
    simp only [List.map_cons, loadRows, exMapM, loadRow_dumpIRect, exceptBind_ok]
    simp only [loadRows] at ih
    rw [ih]
    rfl

theorem exMapM_dumpPages (l : List (Int × List IRect)) :
    exMapM (fun kv => do
        let k ← loadKey kv.1
        let rows ← loadRows kv.2
        Except.ok (k, rows))
      (l.map fun kv => ((JKey.int kv.1 : JKey), JVal.jarr (kv.2.map dumpIRect)))
      = .ok (l.map fun kv => (kv.1, kv.2.map fun r => [r.x0, r.y0, r.x1, r.y1])) := by
  induction l with
  | nil => rfl
  | cons kv rest ih =>
    have hx : (do
        let k ← loadKey ((JKey.int kv.1 : JKey), JVal.jarr (kv.2.map dumpIRect)).1
        let rows ← loadRows ((JKey.int kv.1 : JKey), JVal.jarr (kv.2.map dumpIRect)).2
        Except.ok (k, rows))
        = Except.ok ((kv.1, kv.2.map fun r => [r.x0, r.y0, r.x1, r.y1]) :
            Int × List (List Int)) := by
      simp [loadKey, loadRows_dump, exceptBind_ok]
    simp only [List.map_cons, exMapM]
    rw [hx]
    simp only [exceptBind_ok]
    rw [ih]
    rfl

theorem loadPagesField_dumpPages (l : List (Int × List IRect)) :
    loadPagesField (dumpPages l)
      = .ok (l.map fun kv => (kv.1, kv.2.map fun r => [r.x0, r.y0, r.x1, r.y1])) := by
  unfold dumpPages loadPagesField
  exact exMapM_dumpPages l

theorem rowToIRect_coords (r : IRect) :
    rowToIRect [r.x0, r.y0, r.x1, r.y1] = r := rfl

theorem rowlist_roundtrip (rs : List IRect) :
    List.map rowToIRect (rs.map fun r => [r.x0, r.y0, r.x1, r.y1]) = rs := by
  induction rs with
  | nil => rfl
  | cons r rest ih => simp only [List.map_cons, rowToIRect_coords, ih]

theorem pages_roundtrip (l : List (Int × List IRect)) :
    List.map ((fun kv => (kv.1, List.map rowToIRect kv.2)) ∘
      fun kv => (kv.1, List.map (fun r => [r.x0, r.y0, r.x1, r.y1]) kv.2)) l = l := by
  induction l with
  | nil => rfl
  | cons kv rest ih =>
    simp only [List.map_cons, Function.comp_apply, ih, rowlist_roundtrip]

/-- Loading a document produced by `serialize_regions` recovers exactly the
serialized fields, in both partial and full mode. -/
theorem loadSchema_serialize (p : Bool) (f : PDFFile) (extra : Option Margins) :
    loadSchema p (serializeRegions f extra)
      = .ok ⟨some ⟨some 1, some 0, some 1⟩,
             some ⟨some f.name, some f.checksum, some (f.pageCount : Int)⟩,
             extra.map (fun m =>
               ⟨some m.left, some m.top, some m.right, some m.bottom,
                some m.ignoreImages⟩),
             f.regions⟩ := by
  cases extra with
  | none =>
    simp [serializeRegions, dumpMargins, loadSchema, loadReqField, loadOptField,
      jlookup, loadVersion, loadPdf, loadMargins, loadInt, loadStr, loadBool,
      loadPagesField_dumpPages, exceptBind_ok, exceptMap_ok, pages_roundtrip]
  | some m =>
    simp [serializeRegions, dumpMargins, loadSchema, loadReqField, loadOptField,
      jlookup, loadVersion, loadPdf, loadMargins, loadInt, loadStr, loadBool,
      loadPagesField_dumpPages, exceptBind_ok, exceptMap_ok, pages_roundtrip]

theorem getVersion_serialize (f : PDFFile) (extra : Option Margins) :
    getVersion (serializeRegions f extra) = .ok (1, 0, 1) := by
  unfold getVersion
  rw [loadSchema_serialize true f extra]

theorem fullLoad_serialize (f : PDFFile) (extra : Option Margins) :
    fullLoad (serializeRegions f extra)
      = .ok ⟨1, 0, 1, some f.name, f.checksum, (f.pageCount : Int), extra,
             f.regions⟩ := by
  unfold fullLoad
  rw [loadSchema_serialize false f extra]
  cases extra with
  | none => rfl
  | some m => rfl

/-- C6: deserializing what `serialize_regions` produced on the same,
unmodified store succeeds, returns the store unchanged (the cache is
replaced by a structurally equal copy of itself), and the returned
document's `margins` metadata is exactly what was passed to
`serialize_regions`. -/
theorem claim_C6 (f : PDFFile) (extra : Option Margins) :
    (deserializeRegions f (serializeRegions f extra)).2 = f ∧
    ∃ doc, (deserializeRegions f (serializeRegions f extra)).1 = .ok doc ∧
      doc.margins = extra ∧ doc.pages = f.regions ∧
      doc.pdfChecksum = f.checksum := by
  have hchk : deserializeCheck f (serializeRegions f extra)
      = .ok ⟨1, 0, 1, some f.name, f.checksum, (f.pageCount : Int), extra,
             f.regions⟩ := by
    rw [deserializeCheck_of_getVersion f _ (1, 0, 1)
      (getVersion_serialize f extra), if_neg (by simp)]
    rw [fullLoad_serialize f extra]
    simp
  unfold deserializeRegions
  rw [hchk]
  exact ⟨rfl, ⟨_, rfl, rfl, rfl, rfl⟩⟩

theorem length_extendStep (width : Int) (pb vb ib : List IRect)
    (bs : List IRect) (i : Nat) :
    (extendStep width pb vb ib bs i).length = bs.length := by
  unfold extendStep
  split
  · rfl
  · dsimp only
    split_ifs <;> simp

theorem length_extendIter (width : Int) (pb vb ib : List IRect)
    (bs : List IRect) (j : Nat) :
    (extendIter width pb vb ib bs j).length = bs.length := by
  induction j with
  | zero => rfl
  | succ j ih => rw [extendIter, length_extendStep, ih]

theorem get?_extendStep_ne (width : Int) (pb vb ib : List IRect)
    (bs : List IRect) (j i : Nat) (hne : j ≠ i) :
    (extendStep width pb vb ib bs j).get? i = bs.get? i := by
  unfold extendStep
  split
  · rfl
  · dsimp only
    split_ifs <;> first
      | rfl
      | exact List.get?_set_ne _ bs hne

theorem extendGo_extendIter (width : Int) (pb vb ib : List IRect)
    (bs : List IRect) (k : Nat) : ∀ j,
    extendGo width pb vb ib k (extendIter width pb vb ib bs j) j
      = extendIter width pb vb ib bs (j + k) := by
  induction k with
  | zero => intro j; rfl
  | succ k ih =>
    intro j
    have hstep : extendStep width pb vb ib (extendIter width pb vb ib bs j) j
        = extendIter width pb vb ib bs (j + 1) := rfl
    rw [extendGo, hstep, ih (j + 1)]
    congr 1
    omega

theorem extendRight_eq_extendIter (width : Int) (pb vb ib : List IRect)
    (bs : List IRect) :
    extendRight width pb vb ib bs = extendIter width pb vb ib bs bs.length := by
  unfold extendRight
  calc extendGo width pb vb ib bs.length bs 0
      = extendGo width pb vb ib bs.length (extendIter width pb vb ib bs 0) 0 := rfl
    _ = extendIter width pb vb ib bs (0 + bs.length) :=
        extendGo_extendIter width pb vb ib bs bs.length 0
    _ = extendIter width pb vb ib bs bs.length := by rw [Nat.zero_add]

theorem get?_extendIter_stable (width : Int) (pb vb ib : List IRect)
    (bs : List IRect) (i : Nat) : ∀ k,
    (extendIter width pb vb ib bs (i + 1 + k)).get? i
      = (extendIter width pb vb ib bs (i + 1)).get? i := by
  intro k
  induction k with
  | zero => rfl
  | succ k ih =>
    have : i + 1 + (k + 1) = (i + 1 + k) + 1 := by omega
    rw [this, extendIter, get?_extendStep_ne _ _ _ _ _ _ _ (by omega)]
    exact ih

/-- The final extension pass answers at position `i` exactly what the loop
body computed when it visited `i`: later iterations never touch earlier
positions. -/
theorem get?_extendRight (width : Int) (pb vb ib : List IRect)
    (bs : List IRect) (i : Nat) (hi : i < bs.length) :
    (extendRight width pb vb ib bs).get? i
      = (extendStep width pb vb ib (extendIter width pb vb ib bs i) i).get? i := by
  rw [extendRight_eq_extendIter]
  have hsplit : bs.length = i + 1 + (bs.length - i - 1) := by omega
  rw [hsplit, get?_extendIter_stable]
  rfl

/-- C1 amended: in the rightward extension pass, a candidate not contained
in any path box and not contained in any image box has its right edge
extended to the `width` argument — which `column_boxes` passes as
`int(page.rect.width)`, the page's full width, **not** the margin-reduced
clip boundary (see the counterexample) — provided the widened rectangle
intersects no path box, no vertical-text obstacle, no image box, and no
other candidate of the working list (the list as already mutated by the
extensions of earlier candidates); candidates contained in a path box or an
image box are left unchanged. -/
theorem claim_C1 (width : Int) (pathBBoxes vertBBoxes imgBBoxes : List IRect)
    (bs : List IRect) (i : Nat) (bb : IRect)
    (h : (extendIter width pathBBoxes vertBBoxes imgBBoxes bs i).get? i = some bb) :
    ((inBBox0 bb pathBBoxes = 0 ∧ inBBox0 bb imgBBoxes = 0 ∧
      intersectsBBoxes { bb with x1 := width }
        (pathBBoxes ++ vertBBoxes ++ imgBBoxes) = false ∧
      canExtend vertBBoxes { bb with x1 := width } bb
        ((extendIter width pathBBoxes vertBBoxes imgBBoxes bs i).map some) = true) →
      (extendRight width pathBBoxes vertBBoxes imgBBoxes bs).get? i
        = some { bb with x1 := width }) ∧
    ((inBBox0 bb pathBBoxes ≠ 0 ∨ inBBox0 bb imgBBoxes ≠ 0) →
      (extendRight width pathBBoxes vertBBoxes imgBBoxes bs).get? i = some bb) := by
  have hi : i < bs.length := by
    have hlt := (List.get?_eq_some.mp h).1
    rwa [length_extendIter] at hlt
  have hmain := get?_extendRight width pathBBoxes vertBBoxes imgBBoxes bs i hi
  have hilen : i < (extendIter width pathBBoxes vertBBoxes imgBBoxes bs i).length := by
    rwa [length_extendIter]
  constructor
  · rintro ⟨h1, h2, h3, h4⟩
    rw [hmain]
    simp only [extendStep, h]
    have h3' : intersectsBBoxes { bb with x1 := width }
        (pathBBoxes ++ (vertBBoxes ++ imgBBoxes)) = false := by
      rw [← List.append_assoc]
      exact h3
    simp [h1, h2, h3, h3', h4]
    exact List.getElem?_set_self hilen
  · intro hor
    rw [hmain]
    simp only [extendStep, h]
    by_cases hp : inBBox0 bb pathBBoxes ≠ 0
    · rw [if_pos hp]
      exact h
    · have h2 : inBBox0 bb imgBBoxes ≠ 0 := by tauto
      rw [if_neg hp, if_pos h2]
      exact h

/-- Witness for the C1 amended theorem: the lone candidate `(10,10,200,50)`
with no obstacles is widened to `x1 = 600` on a width-600 page, while the
same candidate contained in the path box `(0,0,300,60)` is left
unchanged. -/
theorem claim_C1_witness :
    (extendRight 600 [] [] [] [⟨10, 10, 200, 50⟩]).get? 0
      = some ⟨10, 10, 600, 50⟩ ∧
    (extendRight 600 [⟨0, 0, 300, 60⟩] [] [] [⟨10, 10, 200, 50⟩]).get? 0
      = some ⟨10, 10, 200, 50⟩ := by
  constructor
  · exact (claim_C1 600 [] [] [] [⟨10, 10, 200, 50⟩] 0 ⟨10, 10, 200, 50⟩
      (by decide)).1 (by decide)
  · exact (claim_C1 600 [⟨0, 0, 300, 60⟩] [] [] [⟨10, 10, 200, 50⟩] 0
      ⟨10, 10, 200, 50⟩ (by decide)).2 (by decide)

/-- C7: on a page with clip rect `(0,0,600,800)`, two horizontal text blocks
with meaningful-text line boxes covering `(10,10,290,100)` and
`(310,10,590,100)`, and no image or path boxes, the Column Detector returns
exactly two regions, the one with left edge 10 first and the one with left
edge 310 second (nothing is merged; the second candidate is additionally
widened to the page's width by the rightward extension pass, which the claim
does not constrain). -/
theorem claim_C7 :
    columnBoxes ⟨0, 0, 600, 800⟩ 0 0 0 0 [] [] [blkLeft, blkRight] false
      = [⟨10, 10, 290, 100⟩, ⟨310, 10, 600, 100⟩] ∧
    (columnBoxes ⟨0, 0, 600, 800⟩ 0 0 0 0 [] [] [blkLeft, blkRight] false).length = 2 ∧
    ((columnBoxes ⟨0, 0, 600, 800⟩ 0 0 0 0 [] [] [blkLeft, blkRight] false).getD 0 default).x0
      = 10 ∧
    ((columnBoxes ⟨0, 0, 600, 800⟩ 0 0 0 0 [] [] [blkLeft, blkRight] false).getD 1 default).x0
      = 310 := by
  refine ⟨by decide, by decide, by decide, by decide⟩

/-- C1 counterexample: with a right margin of 50 on a `(0,0,600,800)` page,
the right clip boundary is `600 - 50 = 550`, yet the single unobstructed
candidate is widened to `x1 = 600`: the extension pass targets
`int(page.rect.width)` (multi_column.py line 213), not the clip boundary
claimed by the specification. -/
theorem claim_C1_counterexample :
    columnBoxes ⟨0, 0, 600, 800⟩ 0 0 0 50 [] [] [blkSingle] false
      = [⟨10, 10, 600, 50⟩] ∧
    ((columnBoxes ⟨0, 0, 600, 800⟩ 0 0 0 50 [] [] [blkSingle] false).getD 0 default).x1
      ≠ 600 - 50 := by
  refine ⟨by decide, by decide⟩

/-- C2 counterexample: `clear_regions` on a page whose cache entry is absent
raises `KeyError` (a bare `dict.pop`, pdffile.py line 78) instead of being a
silent no-op; and `remove_region` with an out-of-bounds region index on an
in-range page does not leave the store unchanged — its bounds check
populates the page's cache entry through `get_regions`. -/
theorem claim_C2_counterexample :
    clearRegions fileBlank 0 = .error "KeyError" ∧
    (removeRegion fileBlank 0 5).regions ≠ fileBlank.regions := by
  exact ⟨rfl, by decide⟩

/-- C3 counterexample: with two cached regions on page 0, `reorder_region`
with index 5 returns 5 (out-of-range indices are returned unchanged, not
clamped to `[0, 1]`), and at the last in-range index 1 the `delta = +1` call
is a clamped no-op returning 1, after which the `delta = -1` call at the
returned index swaps the two regions — the list does not return to its
original order. -/
theorem claim_C3_counterexample :
    (reorderRegion fileTwoRegions 0 5 1).1 = 5 ∧
    ¬((reorderRegion fileTwoRegions 0 5 1).1 < 2) ∧
    (reorderRegion fileTwoRegions 0 1 1).1 = 1 ∧
    alistLookup (reorderRegion (reorderRegion fileTwoRegions 0 1 1).2 0
        (reorderRegion fileTwoRegions 0 1 1).1 (-1)).2.regions 0
      ≠ alistLookup fileTwoRegions.regions 0 := by
  refine ⟨by decide, by decide, by decide, by decide⟩

/-- C10 counterexample: `remove_region` with a negative region index on an
in-range page whose cache entry is absent does not trigger detection — the
bounds check short-circuits at `region < 0` before ever calling
`get_regions` (pdffile.py line 103) — so no cache entry is left behind. -/
theorem claim_C10_counterexample :
    (0 : Int) < (fileBlank.pageCount : Int) ∧
    alistLookup (removeRegion fileBlank 0 (-1)).regions 0 = none := by
  refine ⟨by decide, by decide⟩

end PdfTextorizer
